import Mathlib

/-! The stantest episode filter service.

A shallow embedding of `controllers/episode_controller.go` and `models/episode.go`,
together with the part of Go's standard `net/url` package that `isValidURL` calls
(`url.Parse`, `url.ParseRequestURI` and the helpers they reach, as in Go 1.22).

Conventions of the embedding:

* a Go `string` is its sequence of bytes, `GoString := List Nat`;
* a Go slice that may be `nil` is an `Option (List α)`: `none` is the nil slice and
  `some []` the empty, non-nil slice;
* a Go `error` result is an `Option` (no error is `none`) or an `Except`;
* calls to `c.Logger()` write to the log file only and do not appear in the embedding;
* the handler's input is the outcome of `c.Bind(&request)`; `Bind` gives that outcome for
  a request, following echo's `DefaultBinder`, with the body decoder as a parameter.
-/

namespace Stantest

/-! ## Go strings -/

/-- A Go string is a finite sequence of bytes. -/
abbrev GoString := List Nat

/-- UTF-8 encoding of one code point, as the Go compiler stores a string literal. -/
def utf8Bytes (n : Nat) : List Nat :=
  if n < 0x80 then [n]
  else if n < 0x800 then [0xC0 + n / 64, 0x80 + n % 64]
  else if n < 0x10000 then [0xE0 + n / 4096, 0x80 + n / 64 % 64, 0x80 + n % 64]
  else [0xF0 + n / 262144, 0x80 + n / 4096 % 64, 0x80 + n / 64 % 64, 0x80 + n % 64]

/-- The Go string written as the literal `s`. -/
def goStr (s : String) : GoString :=
  s.data.flatMap fun c => utf8Bytes c.toNat

/-- Go `strings.HasPrefix`. -/
def hasPrefix : GoString → GoString → Bool
  | _, [] => true
  | [], _ :: _ => false
  | x :: xs, p :: ps => x == p && hasPrefix xs ps

/-- Go `strings.HasSuffix(s, string(c))` for a one-byte suffix. -/
def hasSuffixByte : GoString → Nat → Bool
  | [], _ => false
  | [x], c => x == c
  | _ :: y :: ys, c => hasSuffixByte (y :: ys) c

/-- Go `strings.Count(s, string(c))` for a one-byte pattern. -/
def countByte : GoString → Nat → Nat
  | [], _ => 0
  | x :: xs, c => (if x = c then 1 else 0) + countByte xs c

/-- Go `strings.Index(s, string(c))` for a one-byte pattern; `none` stands for `-1`. -/
def indexByte : GoString → Nat → Option Nat
  | [], _ => none
  | x :: xs, c => if x = c then some 0 else (indexByte xs c).map (· + 1)

/-- Go `strings.LastIndex(s, string(c))` for a one-byte pattern; `none` stands for `-1`. -/
def lastIndexByte : GoString → Nat → Option Nat
  | [], _ => none
  | x :: xs, c =>
    match lastIndexByte xs c with
    | some i => some (i + 1)
    | none => if x = c then some 0 else none

/-- Go `strings.Index(s, sub)`; `none` stands for `-1`. -/
def indexOf : GoString → GoString → Option Nat
  | [], sub => if sub = [] then some 0 else none
  | x :: xs, sub =>
    if hasPrefix (x :: xs) sub then some 0 else (indexOf xs sub).map (· + 1)

/-- Go `strings.Contains(s, string(c))` for a one-byte pattern. -/
def containsByte (s : GoString) (c : Nat) : Bool :=
  (indexByte s c).isSome

/-- Go `strings.Cut(s, string(c))` for a one-byte separator: `(before, after, found)`. -/
def cutByte (s : GoString) (c : Nat) : GoString × GoString × Bool :=
  match indexByte s c with
  | some i => (s.take i, s.drop (i + 1), true)
  | none => (s, [], false)

/-- Go `strings.ToLower` on one byte below `utf8.RuneSelf`. -/
def toLowerByte (c : Nat) : Nat :=
  if 65 ≤ c ∧ c ≤ 90 then c + 32 else c

/-- Go `strings.ToLower`, on a string of ASCII bytes (the only strings `parse` passes:
a scheme returned by `getScheme` is made of ASCII letters, digits, `+`, `-`, `.`). -/
def toLower (s : GoString) : GoString :=
  s.map toLowerByte

/-! ## `net/url` -/

/-- The `encoding` modes of `net/url`. -/
inductive Encoding where
  | encodePath
  | encodePathSegment
  | encodeHost
  | encodeZone
  | encodeUserPassword
  | encodeQueryComponent
  | encodeFragment
  deriving DecidableEq, Repr

/-- The errors `net/url`'s `parse` can return. -/
inductive URLError where
  | invalidControlCharacter
  | emptyURL
  | missingProtocolScheme
  | invalidURIForRequest
  | firstPathSegmentColon
  | escapeError (s : GoString)
  | invalidHostError (s : GoString)
  | missingBracket
  | invalidPort (s : GoString)
  | invalidUserinfo
  deriving DecidableEq, Repr

/-- The `url.Userinfo` type. -/
structure Userinfo where
  username : GoString
  password : GoString
  passwordSet : Bool
  deriving DecidableEq, Repr

/-- The `url.URL` type, without the `RawPath` and `RawFragment` encoding hints. -/
structure URL where
  Scheme : GoString := []
  Opaque : GoString := []
  User : Option Userinfo := none
  Host : GoString := []
  Path : GoString := []
  OmitHost : Bool := false
  ForceQuery : Bool := false
  RawQuery : GoString := []
  Fragment : GoString := []
  deriving DecidableEq, Repr

/-- The `stringContainsCTLByte` function: some byte is below space or is DEL. -/
def stringContainsCTLByte : GoString → Bool
  | [] => false
  | b :: bs => if b < 32 ∨ b = 0x7f then true else stringContainsCTLByte bs

/-- The loop of `getScheme`, at index `i` with `rest = rawURL[i:]`. -/
def getSchemeLoop (rawURL : GoString) : Nat → GoString → Except URLError (GoString × GoString)
  | _, [] => .ok ([], rawURL)
  | i, c :: cs =>
    if (97 ≤ c ∧ c ≤ 122) ∨ (65 ≤ c ∧ c ≤ 90) then
      getSchemeLoop rawURL (i + 1) cs
    else if (48 ≤ c ∧ c ≤ 57) ∨ c = 43 ∨ c = 45 ∨ c = 46 then
      if i = 0 then .ok ([], rawURL) else getSchemeLoop rawURL (i + 1) cs
    else if c = 58 then
      if i = 0 then .error .missingProtocolScheme
      else .ok (rawURL.take i, rawURL.drop (i + 1))
    else .ok ([], rawURL)

/-- The `getScheme` function: `(scheme, path)` or an error. -/
def getScheme (rawURL : GoString) : Except URLError (GoString × GoString) :=
  getSchemeLoop rawURL 0 rawURL

/-- The `ishex` function. -/
def ishex (c : Nat) : Bool :=
  (48 ≤ c ∧ c ≤ 57) ∨ (97 ≤ c ∧ c ≤ 102) ∨ (65 ≤ c ∧ c ≤ 70)

/-- The `unhex` function. -/
def unhex (c : Nat) : Nat :=
  if 48 ≤ c ∧ c ≤ 57 then c - 48
  else if 97 ≤ c ∧ c ≤ 102 then c - 97 + 10
  else if 65 ≤ c ∧ c ≤ 70 then c - 65 + 10
  else 0

/-- The `shouldEscape` function. -/
def shouldEscape (c : Nat) (mode : Encoding) : Bool :=
  if (97 ≤ c ∧ c ≤ 122) ∨ (65 ≤ c ∧ c ≤ 90) ∨ (48 ≤ c ∧ c ≤ 57) then false
  else if (mode = .encodeHost ∨ mode = .encodeZone) ∧
      c ∈ [33, 36, 38, 39, 40, 41, 42, 43, 44, 59, 61, 58, 91, 93, 60, 62, 34] then false
  else if c ∈ [45, 95, 46, 126] then false
  else if c ∈ [36, 38, 43, 44, 47, 58, 59, 61, 63, 64] ∧ mode = .encodePath then
    c == 63
  else if c ∈ [36, 38, 43, 44, 47, 58, 59, 61, 63, 64] ∧ mode = .encodePathSegment then
    c == 47 || c == 59 || c == 44 || c == 63
  else if c ∈ [36, 38, 43, 44, 47, 58, 59, 61, 63, 64] ∧ mode = .encodeUserPassword then
    c == 64 || c == 47 || c == 63 || c == 58
  else if c ∈ [36, 38, 43, 44, 47, 58, 59, 61, 63, 64] ∧ mode = .encodeQueryComponent then
    true
  else if c ∈ [36, 38, 43, 44, 47, 58, 59, 61, 63, 64] ∧ mode = .encodeFragment then
    false
  else if mode = .encodeFragment ∧ c ∈ [33, 40, 41, 42] then false
  else true

/-- First loop of `unescape`: checks that every `%` starts a well-formed escape and, in
host modes, that every byte may stand in a host. -/
def unescapeCheck (mode : Encoding) : GoString → Except URLError Unit
  | [] => .ok ()
  | c :: rest =>
    if c = 37 then
      match rest with
      | h1 :: h2 :: rest2 =>
        if !ishex h1 || !ishex h2 then .error (.escapeError [37, h1, h2])
        else if mode = .encodeHost ∧ unhex h1 < 8 ∧ [37, h1, h2] ≠ [37, 50, 53] then
          .error (.escapeError [37, h1, h2])
        else if mode = .encodeZone ∧ [37, h1, h2] ≠ [37, 50, 53] ∧
            (unhex h1 * 16 + unhex h2) % 256 ≠ 32 ∧
            shouldEscape ((unhex h1 * 16 + unhex h2) % 256) .encodeHost then
          .error (.escapeError [37, h1, h2])
        else unescapeCheck mode rest2
      | short => .error (.escapeError (37 :: short))
    else if c = 43 then unescapeCheck mode rest
    else if (mode = .encodeHost ∨ mode = .encodeZone) ∧ c < 0x80 ∧
        shouldEscape c .encodeHost then
      .error (.invalidHostError [c])
    else unescapeCheck mode rest

/-- Second loop of `unescape`: writes the decoded bytes. The first loop has checked that
two hex digits follow every `%`. -/
def unescapeWrite (mode : Encoding) : GoString → GoString
  | [] => []
  | c :: rest =>
    if c = 37 then
      match rest with
      | h1 :: h2 :: rest2 => (unhex h1 * 16 + unhex h2) % 256 :: unescapeWrite mode rest2
      | _ => []
    else if c = 43 then
      (if mode = .encodeQueryComponent then 32 else 43) :: unescapeWrite mode rest
    else c :: unescapeWrite mode rest

/-- The `unescape` function. -/
def unescape (s : GoString) (mode : Encoding) : Except URLError GoString :=
  match unescapeCheck mode s with
  | .error e => .error e
  | .ok () => .ok (unescapeWrite mode s)

/-- The `validOptionalPort` function. -/
def validOptionalPort (port : GoString) : Bool :=
  match port with
  | [] => true
  | c :: ds => if c ≠ 58 then false else ds.all fun b => !(b < 48 || b > 57)

/-- The `parseHost` function. -/
def parseHost (host : GoString) : Except URLError GoString :=
  if hasPrefix host [91] then
    match lastIndexByte host 93 with
    | none => .error .missingBracket
    | some i =>
      let colonPort := host.drop (i + 1)
      if !validOptionalPort colonPort then .error (.invalidPort colonPort)
      else
        match indexOf (host.take i) [37, 50, 53] with
        | some zone =>
          match unescape (host.take zone) .encodeHost with
          | .error e => .error e
          | .ok host1 =>
            match unescape ((host.take i).drop zone) .encodeZone with
            | .error e => .error e
            | .ok host2 =>
              match unescape (host.drop i) .encodeHost with
              | .error e => .error e
              | .ok host3 => .ok (host1 ++ host2 ++ host3)
        | none => unescape host .encodeHost
  else
    match lastIndexByte host 58 with
    | some i =>
      let colonPort := host.drop i
      if !validOptionalPort colonPort then .error (.invalidPort colonPort)
      else unescape host .encodeHost
    | none => unescape host .encodeHost

/-- The `validUserinfo` function. Every byte of a multi-byte rune is at least `0x80`, so
the rune loop rejects exactly when some byte is outside the allowed ASCII set. -/
def validUserinfo (s : GoString) : Bool :=
  s.all fun r =>
    (65 ≤ r ∧ r ≤ 90) ∨ (97 ≤ r ∧ r ≤ 122) ∨ (48 ≤ r ∧ r ≤ 57) ∨
      r ∈ [45, 46, 95, 58, 126, 33, 36, 38, 39, 40, 41, 42, 43, 44, 59, 61, 37, 64]

/-- The user part of `parseAuthority`, for a `userinfo` that passed `validUserinfo`. -/
def parseUserinfo (userinfo : GoString) : Except URLError Userinfo :=
  if !containsByte userinfo 58 then
    match unescape userinfo .encodeUserPassword with
    | .error e => .error e
    | .ok u => .ok ⟨u, [], false⟩
  else
    match unescape (cutByte userinfo 58).1 .encodeUserPassword with
    | .error e => .error e
    | .ok username =>
      match unescape (cutByte userinfo 58).2.1 .encodeUserPassword with
      | .error e => .error e
      | .ok password => .ok ⟨username, password, true⟩

/-- The `parseAuthority` function: `(user, host)` or an error. -/
def parseAuthority (authority : GoString) : Except URLError (Option Userinfo × GoString) :=
  match lastIndexByte authority 64 with
  | none =>
    match parseHost authority with
    | .error e => .error e
    | .ok host => .ok (none, host)
  | some i =>
    match parseHost (authority.drop (i + 1)) with
    | .error e => .error e
    | .ok host =>
      let userinfo := authority.take i
      if !validUserinfo userinfo then .error .invalidUserinfo
      else
        match parseUserinfo userinfo with
        | .error e => .error e
        | .ok user => .ok (some user, host)

/-- The `(*URL).setPath` method (the `RawPath` hint is not kept). -/
def setPath (u : URL) (p : GoString) : Except URLError URL :=
  match unescape p .encodePath with
  | .error e => .error e
  | .ok path => .ok { u with Path := path }

/-- The `(*URL).setFragment` method (the `RawFragment` hint is not kept). -/
def setFragment (u : URL) (f : GoString) : Except URLError URL :=
  match unescape f .encodeFragment with
  | .error e => .error e
  | .ok frag => .ok { u with Fragment := frag }

/-- The split `authority, rest = rest[2:], ""` followed by the cut at the first `/`. -/
def splitAuthority (rest : GoString) : GoString × GoString :=
  match indexByte (rest.drop 2) 47 with
  | some i => ((rest.drop 2).take i, (rest.drop 2).drop i)
  | none => (rest.drop 2, [])

/-- The tail of `parse`, from the authority on: `url` carries scheme and query. -/
def parseRest (url : URL) (rest : GoString) (viaRequest : Bool) : Except URLError URL :=
  if (url.Scheme ≠ [] ∨ (!viaRequest ∧ !hasPrefix rest [47, 47, 47])) ∧
      hasPrefix rest [47, 47] then
    match parseAuthority (splitAuthority rest).1 with
    | .error e => .error e
    | .ok (user, host) =>
      setPath { url with User := user, Host := host } (splitAuthority rest).2
  else if url.Scheme ≠ [] ∧ hasPrefix rest [47] then
    setPath { url with OmitHost := true } rest
  else setPath url rest

/-- The query split of `parse`: `(rest, ForceQuery, RawQuery)`. -/
def cutQuery (rest : GoString) : GoString × Bool × GoString :=
  if hasSuffixByte rest 63 ∧ countByte rest 63 = 1 then
    (rest.take (rest.length - 1), true, [])
  else ((cutByte rest 63).1, false, (cutByte rest 63).2.1)

/-- The `parse` function of `net/url`. -/
def parse (rawURL : GoString) (viaRequest : Bool) : Except URLError URL :=
  if stringContainsCTLByte rawURL then .error .invalidControlCharacter
  else if rawURL = [] ∧ viaRequest then .error .emptyURL
  else if rawURL = [42] then .ok { Path := [42] }
  else
    match getScheme rawURL with
    | .error e => .error e
    | .ok (scheme, rest0) =>
      let rest := (cutQuery rest0).1
      let url : URL :=
        { Scheme := toLower scheme
          ForceQuery := (cutQuery rest0).2.1
          RawQuery := (cutQuery rest0).2.2 }
      if !hasPrefix rest [47] then
        if url.Scheme ≠ [] then .ok { url with Opaque := rest }
        else if viaRequest then .error .invalidURIForRequest
        else if containsByte (cutByte rest 47).1 58 then .error .firstPathSegmentColon
        else parseRest url rest viaRequest
      else parseRest url rest viaRequest

/-- Go `url.Parse`. -/
def Parse (rawURL : GoString) : Except URLError URL :=
  match parse (cutByte rawURL 35).1 false with
  | .error e => .error e
  | .ok url =>
    if (cutByte rawURL 35).2.1 = [] then .ok url
    else setFragment url (cutByte rawURL 35).2.1

/-- Go `url.ParseRequestURI`. -/
def ParseRequestURI (rawURL : GoString) : Except URLError URL :=
  parse rawURL true

/-! ## `models/episode.go` -/

/-- The `models.Image` struct. -/
structure Image where
  ShowImage : GoString := []
  deriving DecidableEq, Repr

/-- The `models.NextEpisode` struct. -/
structure NextEpisode where
  Channel : GoString := []
  ChannelLogo : GoString := []
  Date : GoString := []
  HTML : GoString := []
  URL : GoString := []
  deriving DecidableEq, Repr

/-- The `models.Season` struct. -/
structure Season where
  Slug : GoString := []
  deriving DecidableEq, Repr

/-- The `models.Episode` struct; fields left out of a literal take Go's zero values. -/
structure Episode where
  Country : GoString := []
  Description : GoString := []
  DRM : Bool := false
  EpisodeCount : Int := 0
  Genre : GoString := []
  Image : Image := {}
  Language : GoString := []
  NextEpisode : Option NextEpisode := none
  PrimaryColor : GoString := []
  Seasons : Option (List Season) := none
  Slug : GoString := []
  Title : GoString := []
  TVChannel : GoString := []
  deriving DecidableEq, Repr

/-- The `models.EpisodeRequest` struct. -/
structure EpisodeRequest where
  Payload : Option (List Episode) := none
  Skip : Int := 0
  Take : Int := 0
  Total : Int := 0
  deriving DecidableEq, Repr

/-- The `models.EpisodeResponseItem` struct. -/
structure EpisodeResponseItem where
  Image : GoString
  Slug : GoString
  Title : GoString
  deriving DecidableEq, Repr

/-- The `models.EpisodeResponse` struct. -/
structure EpisodeResponse where
  Response : Option (List EpisodeResponseItem) := none
  deriving DecidableEq, Repr

/-! ## `controllers/episode_controller.go` -/

/-- An `*echo.HTTPError` as built by `echo.NewHTTPError(code, message)`. -/
structure HTTPError where
  Code : Nat
  Message : String
  deriving DecidableEq, Repr

/-- The JSON value handed to `c.JSON`: the `map[string]string{"error": msg}` of the two
failure paths, or a `models.EpisodeResponse`. -/
inductive Body where
  | error (msg : String)
  | episodes (r : EpisodeResponse)
  deriving DecidableEq, Repr

/-- What `c.JSON(status, body)` sends. -/
structure HTTPResponse where
  status : Nat
  body : Body
  deriving DecidableEq, Repr

/-- The `http.StatusBadRequest` constant. -/
def StatusBadRequest : Nat := 400

/-- The `http.StatusOK` constant. -/
def StatusOK : Nat := 200

/-- The `validateRequest` function; the result is the error's message, `none` for `nil`. -/
def validateRequest (request : EpisodeRequest) : Option String :=
  if request.Payload = none then some "payload is required" else none

/-- The `isValidURL` function. -/
def isValidURL (checkUrl : GoString) : Bool :=
  match ParseRequestURI checkUrl with
  | .error _ => false
  | .ok _ =>
    match Parse checkUrl with
    | .error _ => false
    | .ok u =>
      if u.Scheme = [] ∨ u.Host = [] then false
      else if u.Scheme ≠ goStr "https" ∧ u.Scheme ≠ goStr "http" then false
      else true

/-- The `validateEpisode` function; `none` is the `nil` error. -/
def validateEpisode (episode : Episode) : Option HTTPError :=
  if episode.Title = [] then some ⟨400, "title is required"⟩
  else if episode.Slug = [] then some ⟨400, "slug is required"⟩
  else if episode.Image.ShowImage = [] then some ⟨400, "image.showImage is required"⟩
  else if !isValidURL episode.Image.ShowImage then
    some ⟨400, "image.showImage must be a valid URL"⟩
  else none

/-- Go `append(s, x)` on a slice that may be nil. -/
def goAppend {α : Type} (s : Option (List α)) (x : α) : Option (List α) :=
  match s with
  | none => some [x]
  | some xs => some (xs ++ [x])

/-- Go `len(s)` on a slice that may be nil. -/
def goLen {α : Type} (s : Option (List α)) : Nat :=
  match s with
  | none => 0
  | some xs => xs.length

/-- The variables the filter loop of `DealwithEpisodes` updates. -/
structure LoopState where
  response : EpisodeResponse
  matchedCount : Nat
  deriving DecidableEq, Repr

/-- One iteration of `for _, episode := range request.Payload`. -/
def loopBody (st : LoopState) (episode : Episode) : LoopState :=
  if episode.DRM ∧ episode.EpisodeCount > 0 then
    match validateEpisode episode with
    | some _ => st
    | none =>
      { response :=
          { Response := goAppend st.response.Response
              { Image := episode.Image.ShowImage, Slug := episode.Slug, Title := episode.Title } }
        matchedCount := st.matchedCount + 1 }
  else st

/-- The filter loop of `DealwithEpisodes`, run from `var response` and `matchedCount := 0`;
ranging over a nil slice runs no iteration. -/
def filterLoop (payload : Option (List Episode)) : LoopState :=
  (payload.getD []).foldl loopBody { response := { Response := none }, matchedCount := 0 }

/-- The `DealwithEpisodes` handler, on the outcome of `c.Bind(&request)`. -/
def DealwithEpisodes (bound : Except String EpisodeRequest) : HTTPResponse :=
  match bound with
  | .error _ =>
    ⟨StatusBadRequest, .error "Could not decode request: JSON parsing failed"⟩
  | .ok request =>
    match validateRequest request with
    | some err => ⟨StatusBadRequest, .error ("Could not decode request: " ++ err)⟩
    | none =>
      let st := filterLoop request.Payload
      if goLen st.response.Response = 0 then
        ⟨StatusOK, .episodes { Response := some [] }⟩
      else ⟨StatusOK, .episodes st.response⟩

/-- The response list a handler result carries: `none` for an error body or a null list. -/
def responseList (r : HTTPResponse) : Option (List EpisodeResponseItem) :=
  match r.body with
  | .error _ => none
  | .episodes e => e.Response

/-! ## The request as `c.Bind` reads it -/

/-- The part of the `*http.Request` that echo's `DefaultBinder` reads on this route: the
declared content length, the `Content-Type` header and the body bytes. -/
structure HTTPRequest where
  ContentLength : Int
  ContentType : GoString
  Body : GoString
  deriving DecidableEq, Repr

/-- The `BindBody` method of echo's `DefaultBinder` (echo v4, not part of this
repository): a request whose content length is 0 is left unbound, without error, so the
destination keeps Go's zero value; any other request is decoded by its media type.
`decodeBody` stands for that decoding (`encoding/json` for `application/json`, the XML
and form decoders, `ErrUnsupportedMediaType` otherwise). -/
def BindBody (decodeBody : HTTPRequest → Except String EpisodeRequest) (req : HTTPRequest) :
    Except String EpisodeRequest :=
  if req.ContentLength = 0 then .ok {} else decodeBody req

/-- The `Bind` method of echo's `DefaultBinder` on the route `POST /api/v1/episodes`: the
route has no path parameter, query parameters are bound for `GET`, `DELETE` and `HEAD`
only, so what remains is `BindBody`. -/
def Bind (decodeBody : HTTPRequest → Except String EpisodeRequest) (req : HTTPRequest) :
    Except String EpisodeRequest :=
  BindBody decodeBody req

/-- The `DealwithEpisodes` handler on a request: `c.Bind(&request)` and then the handler
body. -/
def DealwithEpisodesOnRequest (decodeBody : HTTPRequest → Except String EpisodeRequest)
    (req : HTTPRequest) : HTTPResponse :=
  DealwithEpisodes (Bind decodeBody req)

/-- A `POST` with an empty body, declared as JSON. -/
def emptyBodyRequest : HTTPRequest :=
  { ContentLength := 0, ContentType := goStr "application/json", Body := [] }

/-! ## JSON texts (RFC 8259) -/

/-- JSON white space: space, tab, line feed, carriage return. -/
def isJSONSpace (c : Nat) : Bool :=
  c == 32 || c == 9 || c == 10 || c == 13

/-- Drops leading JSON white space. -/
def skipJSONSpace : GoString → GoString
  | [] => []
  | c :: cs => if isJSONSpace c then skipJSONSpace cs else c :: cs

/-- Drops leading decimal digits. -/
def dropDigits : GoString → GoString
  | [] => []
  | c :: cs => if 48 ≤ c ∧ c ≤ 57 then dropDigits cs else c :: cs

/-- Reads a JSON string after its opening quote; the result is what follows the closing
quote. Fuel bounds the number of steps. -/
def jsonStringRest : Nat → GoString → Option GoString
  | 0, _ => none
  | _ + 1, [] => none
  | fuel + 1, c :: cs =>
    if c = 34 then some cs
    else if c = 92 then
      match cs with
      | [] => none
      | e :: es =>
        if e = 117 then
          match es with
          | h1 :: h2 :: h3 :: h4 :: rest =>
            if ishex h1 && ishex h2 && ishex h3 && ishex h4 then jsonStringRest fuel rest
            else none
          | _ => none
        else if e ∈ [34, 92, 47, 98, 102, 110, 114, 116] then jsonStringRest fuel es
        else none
    else if c < 32 then none
    else jsonStringRest fuel cs

/-- Reads the exponent part of a JSON number, if any. -/
def jsonExponent (s : GoString) : Option GoString :=
  match s with
  | e :: r =>
    if e = 101 ∨ e = 69 then
      match (match r with
        | 43 :: r2 => r2
        | 45 :: r2 => r2
        | _ => r) with
      | d :: r3 => if 48 ≤ d ∧ d ≤ 57 then some (dropDigits r3) else none
      | [] => none
    else some s
  | [] => some []

/-- Reads the fraction and exponent parts of a JSON number, if any. -/
def jsonFraction (s : GoString) : Option GoString :=
  match s with
  | 46 :: d :: r => if 48 ≤ d ∧ d ≤ 57 then jsonExponent (dropDigits r) else none
  | 46 :: [] => none
  | _ => jsonExponent s

/-- Reads a JSON number; the result is what follows it. -/
def jsonNumber (s : GoString) : Option GoString :=
  match (match s with
    | 45 :: r => r
    | _ => s) with
  | d :: r =>
    if d = 48 then jsonFraction r
    else if 49 ≤ d ∧ d ≤ 57 then jsonFraction (dropDigits r)
    else none
  | [] => none

/-- Strips a literal name from the front of `s`. -/
def jsonLiteral (name s : GoString) : Option GoString :=
  if hasPrefix s name then some (s.drop name.length) else none

/-- The kinds of JSON syntax the reader is in: a value, the elements of an array after
`[`, the members of an object after `{`. -/
inductive JSONKind where
  | value
  | elements
  | members
  deriving DecidableEq, Repr

/-- Reads one JSON value, or the rest of an array or object, from the front of `s`; the
result is what follows it. Fuel bounds the nesting and the number of items. -/
def jsonRead : Nat → JSONKind → GoString → Option GoString
  | 0, _, _ => none
  | fuel + 1, .value, s =>
    match s with
    | [] => none
    | c :: cs =>
      if c = 34 then jsonStringRest (cs.length + 1) cs
      else if c = 123 then
        match skipJSONSpace cs with
        | 125 :: r => some r
        | r => jsonRead fuel .members r
      else if c = 91 then
        match skipJSONSpace cs with
        | 93 :: r => some r
        | r => jsonRead fuel .elements r
      else if c = 116 then jsonLiteral (goStr "true") s
      else if c = 102 then jsonLiteral (goStr "false") s
      else if c = 110 then jsonLiteral (goStr "null") s
      else jsonNumber s
  | fuel + 1, .elements, s =>
    match jsonRead fuel .value s with
    | none => none
    | some r =>
      match skipJSONSpace r with
      | 44 :: r2 => jsonRead fuel .elements (skipJSONSpace r2)
      | 93 :: r2 => some r2
      | _ => none
  | fuel + 1, .members, s =>
    match s with
    | 34 :: cs =>
      match jsonStringRest (cs.length + 1) cs with
      | none => none
      | some r =>
        match skipJSONSpace r with
        | 58 :: r2 =>
          match jsonRead fuel .value (skipJSONSpace r2) with
          | none => none
          | some r3 =>
            match skipJSONSpace r3 with
            | 44 :: r4 => jsonRead fuel .members (skipJSONSpace r4)
            | 125 :: r4 => some r4
            | _ => none
        | _ => none
    | _ => none

/-- The body is a syntactically valid JSON text: one value, with optional white space
around it, and nothing else. -/
def isValidJSON (s : GoString) : Bool :=
  match jsonRead (2 * s.length + 2) .value (skipJSONSpace s) with
  | some r => decide (skipJSONSpace r = [])
  | none => false

/-! ## Reading a URL string -/

/-- The scheme as written in `s`: what `getScheme` splits off, before `parse` lower-cases it;
empty when `s` has no scheme. -/
def writtenScheme (s : GoString) : GoString :=
  match getScheme s with
  | .ok (scheme, _) => scheme
  | .error _ => []

/-- The scheme component of a `getScheme` result. -/
def schemePart (r : Except URLError (GoString × GoString)) : GoString :=
  match r with
  | .ok (scheme, _) => scheme
  | .error _ => []

/-- Both parsers of `isValidURL` accept `s`. -/
def parsesAsURI (s : GoString) : Bool :=
  match ParseRequestURI s, Parse s with
  | .ok _, .ok _ => true
  | _, _ => false

/-- The host `url.Parse` finds in `s`; empty when it finds none or rejects `s`. -/
def hostOf (s : GoString) : GoString :=
  match Parse s with
  | .ok u => u.Host
  | .error _ => []

/-- The `splitHostPort` function of `net/url`: `(host, port)`. -/
def splitHostPort (hostPort : GoString) : GoString × GoString :=
  let hp : GoString × GoString :=
    match lastIndexByte hostPort 58 with
    | some colon =>
      if validOptionalPort (hostPort.drop colon) then
        (hostPort.take colon, hostPort.drop (colon + 1))
      else (hostPort, [])
    | none => (hostPort, [])
  if hasPrefix hp.1 [91] ∧ hasSuffixByte hp.1 93 then
    ((hp.1.drop 1).take (hp.1.length - 2), hp.2)
  else hp

/-- The `(*URL).Hostname` method of `net/url`: `u.Host` without a valid port. -/
def URL.Hostname (u : URL) : GoString :=
  (splitHostPort u.Host).1

/-- The host name of `s`, without the port; empty when `url.Parse` rejects `s`. -/
def hostnameOf (s : GoString) : GoString :=
  match Parse s with
  | .ok u => u.Hostname
  | .error _ => []

/-- The URL validity check as the spec words it: `s` parses as an absolute URI, has a
non-empty scheme and a non-empty host, and its scheme is, case-sensitively, `http` or
`https`. -/
def specValidURL (s : GoString) : Bool :=
  parsesAsURI s && decide (writtenScheme s ≠ []) && decide (hostnameOf s ≠ []) &&
    (decide (writtenScheme s = goStr "http") || decide (writtenScheme s = goStr "https"))

/-- A tail after `scheme://` that leaves the authority empty: nothing, or a path, query
or fragment straight away. -/
def emptyAuthorityTail (tail : GoString) : Bool :=
  match tail with
  | [] => true
  | c :: _ => c == 47 || c == 63 || c == 35

/-- The URL validity check with the scheme compared after ASCII lower-casing: `s` parses
as an absolute URI, has a non-empty scheme and a non-empty host, and its scheme,
lower-cased, is `http` or `https`. -/
def lowerCasedValidURL (s : GoString) : Bool :=
  parsesAsURI s && decide (writtenScheme s ≠ []) && decide (hostnameOf s ≠ []) &&
    (decide (toLower (writtenScheme s) = goStr "http") ||
      decide (toLower (writtenScheme s) = goStr "https"))

/-- The same check on the `Host` field of `url.Parse`, which holds host or host:port. -/
def hostFieldValidURL (s : GoString) : Bool :=
  parsesAsURI s && decide (writtenScheme s ≠ []) && decide (hostOf s ≠ []) &&
    (decide (toLower (writtenScheme s) = goStr "http") ||
      decide (toLower (writtenScheme s) = goStr "https"))

/-! ## Well-formed `http` and `https` URLs -/

/-- An ASCII letter or digit. -/
def isAlnumByte (c : Nat) : Bool :=
  decide ((97 ≤ c ∧ c ≤ 122) ∨ (65 ≤ c ∧ c ≤ 90) ∨ (48 ≤ c ∧ c ≤ 57))

/-- A byte of a host name: a letter, a digit, `.` or `-`. -/
def isHostNameByte (c : Nat) : Bool :=
  isAlnumByte c || c == 46 || c == 45

/-- A decimal digit. -/
def isDigitByte (c : Nat) : Bool :=
  decide (48 ≤ c ∧ c ≤ 57)

/-- An unreserved character of RFC 3986: a letter, a digit, `-`, `.`, `_` or `~`. -/
def isUnreservedByte (c : Nat) : Bool :=
  isAlnumByte c || c == 45 || c == 46 || c == 95 || c == 126

/-- A non-empty host name of letters, digits, `.` and `-`. -/
def isHostName (host : GoString) : Bool :=
  decide (host ≠ []) && host.all isHostNameByte

/-- Nothing, or `:` and a decimal port. -/
def isOptionalPort (port : GoString) : Bool :=
  match port with
  | [] => true
  | c :: ds => c == 58 && ds.all isDigitByte

/-- Nothing, or a path that starts with `/` and goes on with unreserved characters and
`/` separators. -/
def isOptionalPath (path : GoString) : Bool :=
  match path with
  | [] => true
  | c :: p => c == 47 && p.all fun x => isUnreservedByte x || x == 47

/-- Nothing, or `?` and a query of unreserved characters, `=` and `&`. -/
def isOptionalQuery (query : GoString) : Bool :=
  match query with
  | [] => true
  | c :: q => c == 63 && q.all fun x => isUnreservedByte x || x == 61 || x == 38

/-! ## The specification's filter -/

/-- The spec's condition for an episode to survive (section 4.2, conditions 1 to 4), with
`isValidURL` for the URL check. -/
def specKeeps (e : Episode) : Bool :=
  e.DRM == true && decide (e.EpisodeCount > 0) && decide (e.Title ≠ []) &&
    decide (e.Slug ≠ []) && decide (e.Image.ShowImage ≠ []) && isValidURL e.Image.ShowImage

/-- The spec's projection of an episode to `{image, slug, title}`. -/
def specProject (e : Episode) : EpisodeResponseItem :=
  { Image := e.Image.ShowImage, Slug := e.Slug, Title := e.Title }

/-- The spec's response list: the payload filtered in input order, each survivor projected. -/
def specResponse (payload : List Episode) : List EpisodeResponseItem :=
  (payload.filter specKeeps).map specProject

/-! ## What the handler reads of a request -/

/-- The five fields of an episode the filter loop reads: `drm`, `episodeCount`, `title`,
`slug` and `image.showImage`. -/
def filterFields (e : Episode) : Bool × Int × GoString × GoString × GoString :=
  (e.DRM, e.EpisodeCount, e.Title, e.Slug, e.Image.ShowImage)

/-- Two payloads are both nil, or are both lists, of the same length, that agree position
by position on the five fields the filter loop reads. -/
def agreeOnFilterFields (p q : Option (List Episode)) : Prop :=
  match p, q with
  | none, none => True
  | some xs, some ys =>
    xs.length = ys.length ∧
      ∀ i, i < xs.length → (xs[i]?).map filterFields = (ys[i]?).map filterFields
  | _, _ => False

/-- A request with one episode the filter keeps and one it drops. -/
def exampleRequest : EpisodeRequest :=
  { Payload := some
      [{ DRM := true, EpisodeCount := 3, Title := goStr "16 Kids and Counting",
         Slug := goStr "show/16kidsandcounting",
         Image := { ShowImage := goStr "http://catchup.ninemsn.com.au/img/16Kids.jpg" },
         Country := goStr "UK", Genre := goStr "Reality" },
       { DRM := false, EpisodeCount := 2, Title := goStr "The Taste" }] }

/-- The request `exampleRequest` with other descriptive fields, next episode, seasons,
`skip`, `take` and `totalRecords`. -/
def exampleRequestOtherFields : EpisodeRequest :=
  { Payload := some
      [{ DRM := true, EpisodeCount := 3, Title := goStr "16 Kids and Counting",
         Slug := goStr "show/16kidsandcounting",
         Image := { ShowImage := goStr "http://catchup.ninemsn.com.au/img/16Kids.jpg" },
         Country := goStr "USA", Description := goStr "d", Language := goStr "English",
         PrimaryColor := goStr "#ff7800", TVChannel := goStr "GEM",
         NextEpisode := some { Channel := goStr "c" },
         Seasons := some [{ Slug := goStr "show/16kidsandcounting/season/1" }] },
       { DRM := false, EpisodeCount := 2, Title := goStr "The Taste",
         Genre := goStr "Action" }]
    Skip := 5
    Take := 10
    Total := 75 }

/-! ## The filter loop -/

/-- Go `append` on a nil-able slice appends to the slice's elements. -/
theorem goAppend_getD {α : Type} (s : Option (List α)) (x : α) :
    (goAppend s x).getD [] = s.getD [] ++ [x] := by
  cases s <;> rfl

/-- Go `len` on a nil-able slice is the number of its elements. -/
theorem goLen_eq {α : Type} (s : Option (List α)) : goLen s = (s.getD []).length := by
  cases s <;> rfl

/-- A nil-able slice with an element is not nil. -/
theorem eq_some_of_goLen_ne_zero {α : Type} (s : Option (List α)) (h : goLen s ≠ 0) :
    s = some (s.getD []) := by
  cases s with
  | none => exact absurd rfl h
  | some xs => rfl

/-- The errors of `validateEpisode` are exactly the failures of conditions 2 to 4. -/
theorem validateEpisode_eq_none_iff (e : Episode) :
    validateEpisode e = none ↔
      e.Title ≠ [] ∧ e.Slug ≠ [] ∧ e.Image.ShowImage ≠ [] ∧
        isValidURL e.Image.ShowImage = true := by
  unfold validateEpisode
  by_cases h1 : e.Title = []
  · simp [h1]
  · by_cases h2 : e.Slug = []
    · simp [h1, h2]
    · by_cases h3 : e.Image.ShowImage = []
      · simp [h1, h2, h3]
      · by_cases h4 : isValidURL e.Image.ShowImage = true
        · simp [h1, h2, h3, h4]
        · simp [h1, h2, h3, h4]

/-- One iteration appends the projection of a surviving episode and nothing else. -/
theorem loopBody_getD (st : LoopState) (e : Episode) :
    (loopBody st e).response.Response.getD [] =
      st.response.Response.getD [] ++ ([e].filter specKeeps).map specProject := by
  unfold loopBody
  by_cases hb : e.DRM = true ∧ e.EpisodeCount > 0
  · rw [if_pos hb]
    cases hv : validateEpisode e with
    | none =>
      have hk := (validateEpisode_eq_none_iff e).1 hv
      have : specKeeps e = true := by
        simp [specKeeps, hb.1, hb.2, hk.1, hk.2.1, hk.2.2.1, hk.2.2.2]
      simp [goAppend_getD, this, specProject]
    | some err =>
      have : specKeeps e = false := by
        by_contra hne
        have hk : specKeeps e = true := by simpa using hne
        simp only [specKeeps, Bool.and_eq_true, decide_eq_true_eq, beq_iff_eq] at hk
        have := (validateEpisode_eq_none_iff e).2 ⟨hk.1.1.1.2, hk.1.1.2, hk.1.2, hk.2⟩
        rw [hv] at this
        exact absurd this (by simp)
      simp [this]
  · rw [if_neg hb]
    have : specKeeps e = false := by
      by_contra hne
      have hk : specKeeps e = true := by simpa using hne
      simp only [specKeeps, Bool.and_eq_true, decide_eq_true_eq, beq_iff_eq] at hk
      exact hb ⟨hk.1.1.1.1.1, hk.1.1.1.1.2⟩
    simp [this]

/-- The loop appends the spec's response list to what the response held before. -/
theorem foldl_loopBody_getD (payload : List Episode) (st : LoopState) :
    (payload.foldl loopBody st).response.Response.getD [] =
      st.response.Response.getD [] ++ specResponse payload := by
  induction payload generalizing st with
  | nil => simp [specResponse]
  | cons e es ih =>
    rw [List.foldl_cons, ih, loopBody_getD]
    simp only [specResponse, List.append_assoc, ← List.map_append, ← List.filter_append]
    rfl

/-- The elements of the response after the loop are the spec's response list. -/
theorem filterLoop_getD (payload : List Episode) :
    (filterLoop (some payload)).response.Response.getD [] = specResponse payload := by
  unfold filterLoop
  rw [Option.getD_some, foldl_loopBody_getD]
  rfl

/-- On a decoded request with a non-nil payload the handler answers 200 with the spec's
response list, as a non-nil list. -/
theorem DealwithEpisodes_ok (payload : List Episode) (skip take total : Int) :
    DealwithEpisodes (.ok { Payload := some payload, Skip := skip, Take := take, Total := total })
      = ⟨200, .episodes { Response := some (specResponse payload) }⟩ := by
  simp only [DealwithEpisodes, validateRequest, StatusOK]
  rw [if_neg (by simp)]
  simp only
  by_cases h0 : goLen (filterLoop (some payload)).response.Response = 0
  · rw [if_pos h0]
    rw [goLen_eq, filterLoop_getD] at h0
    rw [List.length_eq_zero.1 h0]
  · rw [if_neg h0]
    have := eq_some_of_goLen_ne_zero _ h0
    rw [filterLoop_getD] at this
    rw [← this]

/-! ## The URL check in terms of the parse results -/

/-- The check `isValidURL` makes, read off the two parse results. -/
theorem isValidURL_eq_true_iff (s : GoString) :
    isValidURL s = true ↔
      (∃ r, ParseRequestURI s = .ok r) ∧
        ∃ u, Parse s = .ok u ∧ u.Scheme ≠ [] ∧ u.Host ≠ [] ∧
          (u.Scheme = goStr "https" ∨ u.Scheme = goStr "http") := by
  unfold isValidURL
  cases hr : ParseRequestURI s with
  | error e => simp
  | ok r =>
    cases hp : Parse s with
    | error e => simp
    | ok u =>
      simp only []
      by_cases h1 : u.Scheme = [] ∨ u.Host = []
      · rw [if_pos h1]
        rcases h1 with h1 | h1 <;> simp [h1]
      · rw [if_neg h1]
        rw [not_or] at h1
        by_cases h2 : u.Scheme ≠ goStr "https" ∧ u.Scheme ≠ goStr "http"
        · rw [if_pos h2]
          simp [h2.1, h2.2]
        · rw [if_neg h2]
          have h3 : u.Scheme = goStr "https" ∨ u.Scheme = goStr "http" := by
            by_contra hn
            rw [not_or] at hn
            exact h2 hn
          simp [h1.1, h1.2, h3]

theorem toLower_eq_nil_iff (s : GoString) : toLower s = [] ↔ s = [] := by
  unfold toLower
  exact List.map_eq_nil_iff

theorem hostOf_ne_nil_of_hostnameOf {s : GoString} (h : hostnameOf s ≠ []) : hostOf s ≠ [] := by
  unfold hostnameOf at h
  unfold hostOf
  cases hp : Parse s with
  | error e => rw [hp] at h; exact absurd rfl h
  | ok u =>
    rw [hp] at h
    intro hu
    simp only at hu
    apply h
    simp only [URL.Hostname, hu]
    rfl

/-! ## What `parse` keeps of the scheme -/

theorem writtenScheme_eq (s : GoString) : writtenScheme s = schemePart (getScheme s) := by
  unfold writtenScheme schemePart
  rfl

theorem setPath_ok {u u2 : URL} {p : GoString} (h : setPath u p = .ok u2) :
    u2.Scheme = u.Scheme ∧ u2.Host = u.Host := by
  unfold setPath at h
  split at h
  · exact absurd h (by simp)
  · injection h with h
    subst h
    exact ⟨rfl, rfl⟩

theorem setFragment_ok {u u2 : URL} {f : GoString} (h : setFragment u f = .ok u2) :
    u2.Scheme = u.Scheme ∧ u2.Host = u.Host := by
  unfold setFragment at h
  split at h
  · exact absurd h (by simp)
  · injection h with h
    subst h
    exact ⟨rfl, rfl⟩

theorem parseRest_scheme {url u : URL} {rest : GoString} {v : Bool}
    (h : parseRest url rest v = .ok u) : u.Scheme = url.Scheme := by
  unfold parseRest at h
  split_ifs at h
  · split at h
    · exact absurd h (by simp)
    · exact (setPath_ok h).1
  · exact (setPath_ok h).1
  · exact (setPath_ok h).1

theorem parse_scheme {r : GoString} {v : Bool} {u : URL} (h : parse r v = .ok u) :
    u.Scheme = toLower (writtenScheme r) := by
  unfold parse at h
  by_cases h1 : stringContainsCTLByte r = true
  · rw [if_pos h1] at h
    exact absurd h (by simp)
  rw [if_neg h1] at h
  by_cases h2 : r = [] ∧ v = true
  · rw [if_pos h2] at h
    exact absurd h (by simp)
  rw [if_neg h2] at h
  by_cases h3 : r = [42]
  · rw [if_pos h3] at h
    injection h with h
    subst h
    subst h3
    decide
  rw [if_neg h3] at h
  rw [writtenScheme_eq]
  cases hg : getScheme r with
  | error e => rw [hg] at h; exact absurd h (by simp)
  | ok pr =>
    obtain ⟨scheme, rest0⟩ := pr
    rw [hg] at h
    simp only [schemePart]
    simp only at h
    split_ifs at h
    · injection h with h
      subst h
      rfl
    · exact parseRest_scheme h
    · exact parseRest_scheme h

theorem cutByte_nil (c : Nat) : cutByte [] c = ([], [], false) := rfl

theorem cutByte_cons_self (c : Nat) (xs : GoString) : cutByte (c :: xs) c = ([], xs, true) := by
  simp [cutByte, indexByte]

theorem cutByte_cons_ne {x c : Nat} (h : x ≠ c) (xs : GoString) :
    cutByte (x :: xs) c = (x :: (cutByte xs c).1, (cutByte xs c).2.1, (cutByte xs c).2.2) := by
  unfold cutByte
  simp only [indexByte, if_neg h]
  cases indexByte xs c <;> simp

theorem getSchemeLoop_cut (rest pre : GoString) :
    schemePart (getSchemeLoop (pre ++ (cutByte rest 35).1) pre.length (cutByte rest 35).1)
      = schemePart (getSchemeLoop (pre ++ rest) pre.length rest) := by
  induction rest generalizing pre with
  | nil => simp [cutByte_nil, getSchemeLoop, schemePart]
  | cons c cs ih =>
    have hstep := ih (pre ++ [c])
    simp only [List.append_assoc, List.singleton_append, List.length_append,
      List.length_singleton] at hstep
    by_cases hc : c = 35
    · subst hc
      simp [cutByte_cons_self, getSchemeLoop, schemePart]
    · rw [cutByte_cons_ne hc]
      simp only [getSchemeLoop]
      split_ifs
      · exact hstep
      · rfl
      · exact hstep
      · rfl
      · simp [schemePart, List.take_append_of_le_length]
      · rfl

theorem writtenScheme_cut (s : GoString) :
    writtenScheme (cutByte s 35).1 = writtenScheme s := by
  rw [writtenScheme_eq, writtenScheme_eq]
  exact getSchemeLoop_cut s []

theorem Parse_scheme {s : GoString} {u : URL} (h : Parse s = .ok u) :
    u.Scheme = toLower (writtenScheme s) := by
  unfold Parse at h
  rw [← writtenScheme_cut]
  split at h
  · exact absurd h (by simp)
  · rename_i url hp
    split_ifs at h
    · injection h with h
      subst h
      exact parse_scheme hp
    · rw [(setFragment_ok h).1]
      exact parse_scheme hp

/-! ## The cuts of `parse` as prefixes -/

theorem cutByte_fst_eq_takeWhile (s : GoString) (c : Nat) :
    (cutByte s c).1 = s.takeWhile fun x => decide (x ≠ c) := by
  induction s with
  | nil => rfl
  | cons x xs ih =>
    by_cases h : x = c
    · subst h
      simp [cutByte_cons_self]
    · rw [cutByte_cons_ne h]
      simp [List.takeWhile_cons, h, ih]

theorem cutByte_snd_of_not_mem {s : GoString} {c : Nat} (h : c ∉ s) :
    (cutByte s c).2.1 = [] := by
  induction s with
  | nil => rfl
  | cons x xs ih =>
    have hx : x ≠ c := fun hxc => h (by simp [hxc])
    rw [cutByte_cons_ne hx]
    exact ih fun hm => h (List.mem_cons_of_mem _ hm)

theorem one_le_countByte_of_hasSuffixByte {s : GoString} {c : Nat}
    (h : hasSuffixByte s c = true) : 1 ≤ countByte s c := by
  induction s with
  | nil => simp [hasSuffixByte] at h
  | cons x xs ih =>
    cases xs with
    | nil =>
      simp only [hasSuffixByte, beq_iff_eq] at h
      simp [countByte, h]
    | cons y ys =>
      simp only [hasSuffixByte] at h
      have := ih h
      simp only [countByte] at this ⊢
      omega

theorem take_pred_eq_takeWhile {s : GoString} {c : Nat}
    (hs : hasSuffixByte s c = true) (hc : countByte s c = 1) :
    s.take (s.length - 1) = s.takeWhile fun x => decide (x ≠ c) := by
  induction s with
  | nil => rfl
  | cons x xs ih =>
    cases xs with
    | nil =>
      simp only [hasSuffixByte, beq_iff_eq] at hs
      simp [hs]
    | cons y ys =>
      simp only [hasSuffixByte] at hs
      have h1 := one_le_countByte_of_hasSuffixByte hs
      have hx : x ≠ c := by
        intro hxc
        simp only [countByte, hxc, if_true] at hc h1
        omega
      have hc2 : countByte (y :: ys) c = 1 := by
        simp only [countByte, hx, if_false] at hc ⊢
        omega
      have := ih hs hc2
      simp only [List.length_cons, Nat.add_sub_cancel] at this ⊢
      rw [List.take_succ_cons, this]
      simp [List.takeWhile_cons, hx]

/-- The part of `rest` that `parse` keeps before the query is `rest` up to its first `?`. -/
theorem cutQuery_fst (rest : GoString) :
    (cutQuery rest).1 = rest.takeWhile fun x => decide (x ≠ 63) := by
  unfold cutQuery
  split_ifs with h
  · exact take_pred_eq_takeWhile h.1 h.2
  · exact cutByte_fst_eq_takeWhile rest 63

theorem indexByte_eq_none_iff (s : GoString) (c : Nat) : indexByte s c = none ↔ c ∉ s := by
  induction s with
  | nil => simp [indexByte]
  | cons x xs ih =>
    by_cases h : x = c
    · simp [indexByte, h]
    · have h2 : ¬ c = x := fun e => h e.symm
      simp [indexByte, h, h2, ih]

theorem indexByte_eq_some {s : GoString} {c i : Nat} (h : indexByte s c = some i) :
    s.take i = s.takeWhile (fun x => decide (x ≠ c)) ∧
      s.drop i = s.dropWhile (fun x => decide (x ≠ c)) := by
  induction s generalizing i with
  | nil => simp [indexByte] at h
  | cons x xs ih =>
    by_cases hx : x = c
    · simp only [indexByte, hx, if_true, Option.some.injEq] at h
      subst h
      simp [hx]
    · simp only [indexByte, hx, if_false, Option.map_eq_some'] at h
      obtain ⟨j, hj, rfl⟩ := h
      have := ih hj
      simp [List.takeWhile_cons, List.dropWhile_cons, hx, this.1, this.2]

/-- The authority is what follows `//` up to the first `/`, the path is what remains. -/
theorem splitAuthority_eq (rest : GoString) :
    splitAuthority rest =
      ((rest.drop 2).takeWhile (fun x => decide (x ≠ 47)),
        (rest.drop 2).dropWhile (fun x => decide (x ≠ 47))) := by
  unfold splitAuthority
  cases h : indexByte (rest.drop 2) 47 with
  | none =>
    have hn := (indexByte_eq_none_iff _ _).1 h
    have hall : ∀ x ∈ rest.drop 2, decide (x ≠ 47) = true := by
      intro x hx
      simp only [decide_eq_true_eq]
      exact fun e => hn (e ▸ hx)
    simp only [List.takeWhile_eq_self_iff.2 hall, List.dropWhile_eq_nil_iff.2 hall]
  | some i =>
    have := indexByte_eq_some h
    simp only [this.1, this.2]

/-! ## `parse` on a URL with a scheme and an authority -/

theorem hasPrefix_one_of_two {s : GoString} {a b : Nat} (h : hasPrefix s [a, b] = true) :
    hasPrefix s [a] = true := by
  cases s with
  | nil => simp [hasPrefix] at h
  | cons x xs =>
    simp only [hasPrefix, Bool.and_eq_true, beq_iff_eq] at h
    simp [hasPrefix, h.1]

theorem parseRest_authority_ok {url : URL} {rest : GoString} (v : Bool)
    (hs : url.Scheme ≠ []) (hpre : hasPrefix rest [47, 47] = true)
    {user : Option Userinfo} {host : GoString}
    (ha : parseAuthority (splitAuthority rest).1 = .ok (user, host)) :
    parseRest url rest v =
      setPath { url with User := user, Host := host } (splitAuthority rest).2 := by
  unfold parseRest
  rw [if_pos ⟨Or.inl hs, hpre⟩, ha]

theorem getScheme_nil : getScheme [] = .ok ([], []) := rfl

theorem getScheme_star : getScheme [42] = .ok ([], [42]) := rfl

/-- On a string without control bytes that has a scheme followed by `//`, `parse` goes
on to the authority with the lower-cased scheme. -/
theorem parse_eq_parseRest {r scheme rest0 : GoString} (v : Bool)
    (hctl : stringContainsCTLByte r = false)
    (hg : getScheme r = .ok (scheme, rest0)) (hs : scheme ≠ [])
    (hpre : hasPrefix (cutQuery rest0).1 [47, 47] = true) :
    parse r v =
      parseRest
        { Scheme := toLower scheme, ForceQuery := (cutQuery rest0).2.1,
          RawQuery := (cutQuery rest0).2.2 }
        (cutQuery rest0).1 v := by
  have hne : r ≠ [] := by
    intro h
    rw [h, getScheme_nil] at hg
    injection hg with hg
    exact hs (congrArg Prod.fst hg).symm
  have hstar : r ≠ [42] := by
    intro h
    rw [h, getScheme_star] at hg
    injection hg with hg
    exact hs (congrArg Prod.fst hg).symm
  unfold parse
  rw [if_neg (by simp [hctl]), if_neg (fun h => hne h.1), if_neg hstar, hg]
  simp only
  rw [if_neg (by simp [hasPrefix_one_of_two hpre])]

theorem Parse_error_of_parse {s : GoString} {e : URLError}
    (h : parse (cutByte s 35).1 false = .error e) : Parse s = .error e := by
  unfold Parse
  rw [h]

theorem Parse_host_of_parse {s : GoString} {url u : URL}
    (hp : parse (cutByte s 35).1 false = .ok url) (h : Parse s = .ok u) :
    u.Host = url.Host := by
  unfold Parse at h
  rw [hp] at h
  simp only at h
  split_ifs at h
  · injection h with h
    rw [h]
  · exact (setFragment_ok h).2

theorem stringContainsCTLByte_eq_false_iff (s : GoString) :
    stringContainsCTLByte s = false ↔ ∀ c ∈ s, 32 ≤ c ∧ c ≠ 127 := by
  induction s with
  | nil => simp [stringContainsCTLByte]
  | cons x xs ih =>
    simp only [stringContainsCTLByte, List.mem_cons, forall_eq_or_imp]
    by_cases h : x < 32 ∨ x = 127
    · rw [if_pos h]
      simp only [Bool.true_eq_false, false_iff, not_and]
      intro hx
      rcases h with h | h
      · omega
      · exact absurd h hx.2
    · rw [if_neg h, ih]
      rw [not_or] at h
      constructor
      · intro hall
        exact ⟨⟨by omega, h.2⟩, hall⟩
      · intro hall
        exact hall.2

theorem parseAuthority_nil : parseAuthority [] = .ok (none, []) := rfl

/-! ## `unescape` and `parseAuthority` on plain bytes -/

theorem unescapeCheck_ok {mode : Encoding} {l : GoString} (h37 : 37 ∉ l)
    (hhost : mode = .encodeHost ∨ mode = .encodeZone →
      ∀ c ∈ l, shouldEscape c .encodeHost = false) :
    unescapeCheck mode l = .ok () := by
  induction l with
  | nil => rfl
  | cons c cs ih =>
    have hc : c ≠ 37 := fun h => h37 (by simp [h])
    have ih2 := ih (fun h => h37 (List.mem_cons_of_mem _ h))
      (fun hm x hx => hhost hm x (List.mem_cons_of_mem _ hx))
    unfold unescapeCheck
    rw [if_neg hc]
    by_cases h43 : c = 43
    · rw [if_pos h43]
      exact ih2
    · rw [if_neg h43]
      by_cases hm : mode = .encodeHost ∨ mode = .encodeZone
      · have := hhost hm c (List.mem_cons_self _ _)
        rw [if_neg (by simp [this])]
        exact ih2
      · rw [if_neg (fun h => hm h.1)]
        exact ih2

theorem unescapeWrite_eq {mode : Encoding} {l : GoString} (h37 : 37 ∉ l)
    (hm : mode ≠ .encodeQueryComponent) : unescapeWrite mode l = l := by
  induction l with
  | nil => rfl
  | cons c cs ih =>
    have hc : c ≠ 37 := fun h => h37 (by simp [h])
    have ih2 := ih (fun h => h37 (List.mem_cons_of_mem _ h))
    unfold unescapeWrite
    rw [if_neg hc]
    by_cases h43 : c = 43
    · rw [if_pos h43, if_neg hm, ih2, h43]
    · rw [if_neg h43, ih2]

theorem unescape_eq {mode : Encoding} {l : GoString} (h37 : 37 ∉ l)
    (hm : mode ≠ .encodeQueryComponent)
    (hhost : mode = .encodeHost ∨ mode = .encodeZone →
      ∀ c ∈ l, shouldEscape c .encodeHost = false) :
    unescape l mode = .ok l := by
  unfold unescape
  rw [unescapeCheck_ok h37 hhost]
  simp only
  rw [unescapeWrite_eq h37 hm]

theorem lastIndexByte_eq_none_iff (s : GoString) (c : Nat) :
    lastIndexByte s c = none ↔ c ∉ s := by
  induction s with
  | nil => simp [lastIndexByte]
  | cons x xs ih =>
    unfold lastIndexByte
    cases h : lastIndexByte xs c with
    | some i =>
      have : ¬ c ∉ xs := fun hn => by
        rw [ih.2 hn] at h
        exact absurd h (by simp)
      simp only [reduceCtorEq, false_iff, List.mem_cons, not_or, not_and, not_not]
      intro _
      exact not_not.1 this
    | none =>
      have hn := ih.1 h
      by_cases hx : x = c
      · simp [hx]
      · have hx2 : ¬ c = x := fun e => hx e.symm
        simp [hx, hx2, hn]

theorem lastIndexByte_append_cons {l r : GoString} {c : Nat} (h : c ∉ r) :
    lastIndexByte (l ++ c :: r) c = some l.length := by
  induction l with
  | nil =>
    simp only [List.nil_append, lastIndexByte, (lastIndexByte_eq_none_iff r c).2 h]
    simp
  | cons x xs ih =>
    rw [List.cons_append]
    unfold lastIndexByte
    rw [ih]
    rfl

/-- On a host name with an optional port, free of `@`, `[` at the start and `%`,
`parseAuthority` returns the text as the host and no user. -/
theorem parseAuthority_host_port {host port : GoString}
    (h91 : hasPrefix (host ++ port) [91] = false)
    (h64 : 64 ∉ host ++ port) (h37 : 37 ∉ host ++ port)
    (hesc : ∀ c ∈ host ++ port, shouldEscape c .encodeHost = false)
    (h58 : 58 ∉ host)
    (hport : port = [] ∨ ∃ ds, port = 58 :: ds ∧ 58 ∉ ds ∧ validOptionalPort port = true) :
    parseAuthority (host ++ port) = .ok (none, host ++ port) := by
  have hun : unescape (host ++ port) .encodeHost = .ok (host ++ port) :=
    unescape_eq h37 (by decide) (fun _ => hesc)
  have hph : parseHost (host ++ port) = .ok (host ++ port) := by
    unfold parseHost
    rw [if_neg (by simp [h91])]
    rcases hport with hp | ⟨ds, hp, hds, hvalid⟩
    · subst hp
      rw [List.append_nil] at hun ⊢
      rw [(lastIndexByte_eq_none_iff host 58).2 h58]
      exact hun
    · have hl : lastIndexByte (host ++ port) 58 = some host.length := by
        rw [hp]
        exact lastIndexByte_append_cons hds
      rw [hl]
      simp only [List.drop_left, hvalid]
      exact hun
  unfold parseAuthority
  rw [(lastIndexByte_eq_none_iff _ 64).2 h64, hph]

/-! ## `parse` on a well-formed `http` or `https` URL -/

theorem parse_wellFormed (v : Bool) {scheme A path query : GoString}
    (hscheme : scheme = [104, 116, 116, 112] ∨ scheme = [104, 116, 116, 112, 115])
    (hctl : ∀ c ∈ (A ++ path) ++ query, 32 ≤ c ∧ c ≠ 127)
    (hA63 : ∀ c ∈ A ++ path, c ≠ 63)
    (hq : query = [] ∨ ∃ q, query = 63 :: q)
    (hA47 : ∀ c ∈ A, c ≠ 47)
    (hp : path = [] ∨ ∃ p, path = 47 :: p)
    (hauth : parseAuthority A = .ok (none, A))
    (hp37 : 37 ∉ path) :
    ∃ u, parse (scheme ++ 58 :: 47 :: 47 :: ((A ++ path) ++ query)) v = .ok u ∧
      u.Scheme = scheme ∧ u.Host = A := by
  have hg : getScheme (scheme ++ 58 :: 47 :: 47 :: ((A ++ path) ++ query))
      = .ok (scheme, 47 :: 47 :: ((A ++ path) ++ query)) := by
    rcases hscheme with h | h <;> subst h <;> rfl
  have hsne : scheme ≠ [] := by
    rcases hscheme with h | h <;> subst h <;> simp
  have hlow : toLower scheme = scheme := by
    rcases hscheme with h | h <;> subst h <;> rfl
  have hsch : ∀ c ∈ scheme, 32 ≤ c ∧ c ≠ 127 := by
    rcases hscheme with h | h <;> subst h <;> decide
  have hc : stringContainsCTLByte (scheme ++ 58 :: 47 :: 47 :: ((A ++ path) ++ query))
      = false := by
    rw [stringContainsCTLByte_eq_false_iff]
    intro c hmem
    rw [List.mem_append] at hmem
    rcases hmem with hmem | hmem
    · exact hsch c hmem
    · simp only [List.mem_cons] at hmem
      rcases hmem with h | h | h | h
      · subst h; decide
      · subst h; decide
      · subst h; decide
      · exact hctl c h
  have hcq : (cutQuery (47 :: 47 :: ((A ++ path) ++ query))).1 = 47 :: 47 :: (A ++ path) := by
    rw [cutQuery_fst]
    have hre : 47 :: 47 :: ((A ++ path) ++ query) = (47 :: 47 :: (A ++ path)) ++ query := rfl
    have hall : ∀ a ∈ 47 :: 47 :: (A ++ path), (decide (a ≠ 63)) = true := by
      intro a ha
      simp only [List.mem_cons] at ha
      rcases ha with h | h | h
      · subst h; decide
      · subst h; decide
      · simpa using hA63 a h
    rw [hre, List.takeWhile_append_of_pos hall]
    rcases hq with h | ⟨q, h⟩ <;> subst h <;> simp
  have hpre : hasPrefix (47 :: 47 :: (A ++ path)) [47, 47] = true := by
    simp [hasPrefix]
  have hallA : ∀ a ∈ A, (decide (a ≠ 47)) = true := by
    intro a ha
    simpa using hA47 a ha
  have hsplit : splitAuthority (47 :: 47 :: (A ++ path)) = (A, path) := by
    rw [splitAuthority_eq]
    simp only [List.drop_succ_cons, List.drop_zero]
    rw [List.takeWhile_append_of_pos hallA, List.dropWhile_append_of_pos hallA]
    rcases hp with h | ⟨q, h⟩ <;> subst h <;> simp
  have hls : toLower scheme ≠ [] := by rw [hlow]; exact hsne
  have hparse := parse_eq_parseRest v hc hg hsne (by rw [hcq]; exact hpre)
  rw [hcq] at hparse
  have ha : parseAuthority (splitAuthority (47 :: 47 :: (A ++ path))).1 = .ok (none, A) := by
    rw [hsplit]
    exact hauth
  rw [parseRest_authority_ok v hls hpre ha, hsplit] at hparse
  have hun : unescape path .encodePath = .ok path :=
    unescape_eq hp37 (by decide) (fun h => by rcases h with h | h <;> exact absurd h (by decide))
  simp only [setPath, hun] at hparse
  exact ⟨_, hparse, hlow, rfl⟩

theorem Parse_eq_parse {s : GoString} (h : 35 ∉ s) : Parse s = parse s false := by
  have h1 : (cutByte s 35).1 = s := by
    rw [cutByte_fst_eq_takeWhile, List.takeWhile_eq_self_iff]
    intro x hx
    simp only [decide_eq_true_eq]
    exact fun e => h (e ▸ hx)
  unfold Parse
  rw [cutByte_snd_of_not_mem h, h1]
  cases parse s false <;> simp

theorem hostNameByte_props : ∀ c, c < 128 → isHostNameByte c = true →
    shouldEscape c .encodeHost = false ∧ 32 ≤ c ∧ c ≠ 127 ∧ c ≠ 35 ∧ c ≠ 37 ∧ c ≠ 47 ∧
      c ≠ 58 ∧ c ≠ 63 ∧ c ≠ 64 ∧ c ≠ 91 := by
  decide

theorem digitByte_props : ∀ c, c < 128 → isDigitByte c = true →
    shouldEscape c .encodeHost = false ∧ 32 ≤ c ∧ c ≠ 127 ∧ c ≠ 35 ∧ c ≠ 37 ∧ c ≠ 47 ∧
      c ≠ 58 ∧ c ≠ 63 ∧ c ≠ 64 ∧ c ≠ 91 := by
  decide

theorem pathByte_props : ∀ c, c < 128 → (isUnreservedByte c || c == 47) = true →
    32 ≤ c ∧ c ≠ 127 ∧ c ≠ 35 ∧ c ≠ 37 ∧ c ≠ 63 := by
  decide

theorem queryByte_props : ∀ c, c < 128 →
    (isUnreservedByte c || c == 61 || c == 38) = true →
    32 ≤ c ∧ c ≠ 127 ∧ c ≠ 35 := by
  decide

theorem isAlnumByte_lt {c : Nat} (h : isAlnumByte c = true) : c < 128 := by
  simp only [isAlnumByte, decide_eq_true_eq] at h
  omega

theorem isHostNameByte_lt {c : Nat} (h : isHostNameByte c = true) : c < 128 := by
  simp only [isHostNameByte, Bool.or_eq_true, beq_iff_eq] at h
  rcases h with (h | h) | h
  · exact isAlnumByte_lt h
  · omega
  · omega

theorem isUnreservedByte_lt {c : Nat} (h : isUnreservedByte c = true) : c < 128 := by
  simp only [isUnreservedByte, Bool.or_eq_true, beq_iff_eq] at h
  rcases h with (((h | h) | h) | h) | h
  · exact isAlnumByte_lt h
  all_goals omega

theorem isDigitByte_lt {c : Nat} (h : isDigitByte c = true) : c < 128 := by
  simp only [isDigitByte, decide_eq_true_eq] at h
  omega

theorem host_mem_props {host : GoString} (h : isHostName host = true) :
    host ≠ [] ∧ ∀ c ∈ host,
      shouldEscape c .encodeHost = false ∧ 32 ≤ c ∧ c ≠ 127 ∧ c ≠ 35 ∧ c ≠ 37 ∧ c ≠ 47 ∧
        c ≠ 58 ∧ c ≠ 63 ∧ c ≠ 64 ∧ c ≠ 91 := by
  simp only [isHostName, Bool.and_eq_true, decide_eq_true_eq, List.all_eq_true] at h
  exact ⟨h.1, fun c hc => hostNameByte_props c (isHostNameByte_lt (h.2 c hc)) (h.2 c hc)⟩

theorem port_mem_props {port : GoString} (h : isOptionalPort port = true) :
    (port = [] ∨ ∃ ds, port = 58 :: ds ∧ 58 ∉ ds ∧ validOptionalPort port = true)
    ∧ ∀ c ∈ port,
      shouldEscape c .encodeHost = false ∧ 32 ≤ c ∧ c ≠ 127 ∧ c ≠ 35 ∧ c ≠ 37 ∧ c ≠ 47 ∧
        c ≠ 63 ∧ c ≠ 64 := by
  cases port with
  | nil => simp
  | cons x ds =>
    simp only [isOptionalPort, Bool.and_eq_true, beq_iff_eq, List.all_eq_true] at h
    obtain ⟨hx, hds⟩ := h
    subst hx
    have hd : ∀ c ∈ ds, shouldEscape c .encodeHost = false ∧ 32 ≤ c ∧ c ≠ 127 ∧ c ≠ 35 ∧
        c ≠ 37 ∧ c ≠ 47 ∧ c ≠ 58 ∧ c ≠ 63 ∧ c ≠ 64 ∧ c ≠ 91 :=
      fun c hc => digitByte_props c (isDigitByte_lt (hds c hc)) (hds c hc)
    refine ⟨Or.inr ⟨ds, rfl, fun hm => (hd 58 hm).2.2.2.2.2.2.1 rfl, ?_⟩, ?_⟩
    · simp only [validOptionalPort, ne_eq, not_true_eq_false, if_false, List.all_eq_true]
      intro b hb
      have := hds b hb
      simp only [isDigitByte, decide_eq_true_eq] at this
      simp only [Bool.not_eq_true', Bool.or_eq_false_iff, decide_eq_false_iff_not]
      omega
    · intro c hc
      rcases List.mem_cons.1 hc with h | h
      · subst h
        decide
      · have := hd c h
        exact ⟨this.1, this.2.1, this.2.2.1, this.2.2.2.1, this.2.2.2.2.1, this.2.2.2.2.2.1,
          this.2.2.2.2.2.2.2.1, this.2.2.2.2.2.2.2.2.1⟩

theorem path_mem_props {path : GoString} (h : isOptionalPath path = true) :
    (path = [] ∨ ∃ p, path = 47 :: p)
    ∧ ∀ c ∈ path, 32 ≤ c ∧ c ≠ 127 ∧ c ≠ 35 ∧ c ≠ 37 ∧ c ≠ 63 := by
  cases path with
  | nil => simp
  | cons x p =>
    simp only [isOptionalPath, Bool.and_eq_true, beq_iff_eq, List.all_eq_true] at h
    obtain ⟨hx, hp⟩ := h
    subst hx
    refine ⟨Or.inr ⟨p, rfl⟩, ?_⟩
    intro c hc
    rcases List.mem_cons.1 hc with h | h
    · subst h
      decide
    · have hc2 := hp c h
      have hlt : c < 128 := by
        rcases Bool.or_eq_true_iff.1 hc2 with h1 | h1
        · exact isUnreservedByte_lt h1
        · simp only [beq_iff_eq] at h1
          omega
      exact pathByte_props c hlt hc2

theorem query_mem_props {query : GoString} (h : isOptionalQuery query = true) :
    (query = [] ∨ ∃ q, query = 63 :: q)
    ∧ ∀ c ∈ query, 32 ≤ c ∧ c ≠ 127 ∧ c ≠ 35 := by
  cases query with
  | nil => simp
  | cons x q =>
    simp only [isOptionalQuery, Bool.and_eq_true, beq_iff_eq, List.all_eq_true] at h
    obtain ⟨hx, hq⟩ := h
    subst hx
    refine ⟨Or.inr ⟨q, rfl⟩, ?_⟩
    intro c hc
    rcases List.mem_cons.1 hc with h | h
    · subst h
      decide
    · have hc2 := hq c h
      have hlt : c < 128 := by
        rcases Bool.or_eq_true_iff.1 hc2 with h1 | h1
        · rcases Bool.or_eq_true_iff.1 h1 with h2 | h2
          · exact isUnreservedByte_lt h2
          · simp only [beq_iff_eq] at h2
            omega
        · simp only [beq_iff_eq] at h1
          omega
      exact queryByte_props c hlt hc2

/-- The URL check accepts a well-formed `http` or `https` URL. -/
theorem isValidURL_wellFormed {scheme host port path query : GoString}
    (hscheme : scheme = goStr "http" ∨ scheme = goStr "https")
    (hhost : isHostName host = true) (hport : isOptionalPort port = true)
    (hpath : isOptionalPath path = true) (hquery : isOptionalQuery query = true) :
    isValidURL (scheme ++ goStr "://" ++ host ++ port ++ path ++ query) = true := by
  obtain ⟨hne, hh⟩ := host_mem_props hhost
  obtain ⟨hpshape, hpm⟩ := port_mem_props hport
  obtain ⟨hpathshape, hpathm⟩ := path_mem_props hpath
  obtain ⟨hqshape, hqm⟩ := query_mem_props hquery
  have hsch : scheme = [104, 116, 116, 112] ∨ scheme = [104, 116, 116, 112, 115] := hscheme
  have hre : scheme ++ goStr "://" ++ host ++ port ++ path ++ query
      = scheme ++ 58 :: 47 :: 47 :: (((host ++ port) ++ path) ++ query) := by
    have : goStr "://" = [58, 47, 47] := by decide
    rw [this]
    simp only [List.append_assoc, List.cons_append, List.nil_append]
  have hA : ∀ c ∈ host ++ port,
      shouldEscape c .encodeHost = false ∧ 32 ≤ c ∧ c ≠ 127 ∧ c ≠ 35 ∧ c ≠ 37 ∧ c ≠ 47 ∧
        c ≠ 63 ∧ c ≠ 64 := by
    intro c hc
    rcases List.mem_append.1 hc with h | h
    · have := hh c h
      exact ⟨this.1, this.2.1, this.2.2.1, this.2.2.2.1, this.2.2.2.2.1, this.2.2.2.2.2.1,
        this.2.2.2.2.2.2.2.1, this.2.2.2.2.2.2.2.2.1⟩
    · exact hpm c h
  have h91 : hasPrefix (host ++ port) [91] = false := by
    cases host with
    | nil => exact absurd rfl hne
    | cons x xs =>
      have : x ≠ 91 := (hh x (List.mem_cons_self _ _)).2.2.2.2.2.2.2.2.2
      simp [hasPrefix, this]
  have hauth : parseAuthority (host ++ port) = .ok (none, host ++ port) :=
    parseAuthority_host_port h91 (fun hm => (hA 64 hm).2.2.2.2.2.2.2 rfl)
      (fun hm => (hA 37 hm).2.2.2.2.1 rfl) (fun c hc => (hA c hc).1)
      (fun hm => (hh 58 hm).2.2.2.2.2.2.1 rfl) hpshape
  have hctl : ∀ c ∈ ((host ++ port) ++ path) ++ query, 32 ≤ c ∧ c ≠ 127 := by
    intro c hc
    rcases List.mem_append.1 hc with h | h
    · rcases List.mem_append.1 h with h | h
      · exact ⟨(hA c h).2.1, (hA c h).2.2.1⟩
      · exact ⟨(hpathm c h).1, (hpathm c h).2.1⟩
    · exact ⟨(hqm c h).1, (hqm c h).2.1⟩
  have hA63 : ∀ c ∈ (host ++ port) ++ path, c ≠ 63 := by
    intro c hc
    rcases List.mem_append.1 hc with h | h
    · exact (hA c h).2.2.2.2.2.2.1
    · exact (hpathm c h).2.2.2.2
  have h35 : 35 ∉ scheme ++ 58 :: 47 :: 47 :: (((host ++ port) ++ path) ++ query) := by
    intro hm
    rcases List.mem_append.1 hm with h | h
    · rcases hsch with e | e <;> subst e <;> exact absurd h (by decide)
    · simp only [List.mem_cons, List.mem_append] at h
      rcases h with h | h | h | (((h | h) | h) | h)
      · exact absurd h (by decide)
      · exact absurd h (by decide)
      · exact absurd h (by decide)
      · exact (hA 35 (List.mem_append.2 (Or.inl h))).2.2.2.1 rfl
      · exact (hA 35 (List.mem_append.2 (Or.inr h))).2.2.2.1 rfl
      · exact (hpathm 35 h).2.2.1 rfl
      · exact (hqm 35 h).2.2 rfl
  have hsne : scheme ≠ [] := by
    rcases hsch with e | e <;> subst e <;> simp
  have hAne : host ++ port ≠ [] := by
    simp [hne]
  rw [hre, isValidURL_eq_true_iff]
  obtain ⟨r, hr, -, -⟩ := parse_wellFormed true hsch hctl hA63 hqshape
    (fun c hc => (hA c hc).2.2.2.2.2.1) hpathshape hauth (fun hm => (hpathm 37 hm).2.2.2.1 rfl)
  obtain ⟨u, hu, husch, huhost⟩ := parse_wellFormed false hsch hctl hA63 hqshape
    (fun c hc => (hA c hc).2.2.2.2.2.1) hpathshape hauth (fun hm => (hpathm 37 hm).2.2.2.1 rfl)
  refine ⟨⟨r, hr⟩, u, ?_, ?_, ?_, ?_⟩
  · rw [Parse_eq_parse h35]
    exact hu
  · rw [husch]
    exact hsne
  · rw [huhost]
    exact hAne
  · rw [husch]
    rcases hscheme with e | e
    · exact Or.inr e
    · exact Or.inl e

/-! ## Claims about the handler -/

/-- C1: for a decoded request whose payload is a non-nil list, the handler's response list
is the payload filtered in input order to the episodes with `drm`, `episodeCount > 0`,
non-empty title, slug and image and a valid image URL, each projected to
`{image, slug, title}`; it is a sublist of the projected payload, so nothing is
duplicated, reordered or altered. -/
theorem C1_response_is_filtered_payload (payload : List Episode) (skip take total : Int) :
    responseList (DealwithEpisodes
        (.ok { Payload := some payload, Skip := skip, Take := take, Total := total }))
      = some ((payload.filter fun e =>
          e.DRM == true && decide (e.EpisodeCount > 0) && decide (e.Title ≠ []) &&
            decide (e.Slug ≠ []) && decide (e.Image.ShowImage ≠ []) &&
            isValidURL e.Image.ShowImage).map fun e =>
          { Image := e.Image.ShowImage, Slug := e.Slug, Title := e.Title })
    ∧ List.Sublist (specResponse payload) (payload.map specProject) := by
  refine ⟨?_, ?_⟩
  · rw [DealwithEpisodes_ok]
    rfl
  · exact (List.filter_sublist payload).map specProject

/-- C2: `validateRequest` fails, with the message "payload is required", exactly when the
payload is nil; it accepts every non-nil payload, the empty list included, and its result
depends on nothing but whether the payload is nil. -/
theorem C2_validateRequest_iff (request : EpisodeRequest) :
    (validateRequest request = some "payload is required" ↔ request.Payload = none)
    ∧ (validateRequest request = none ↔ request.Payload ≠ none)
    ∧ validateRequest { request with Payload := some [] } = none
    ∧ (∀ other : EpisodeRequest, (other.Payload = none ↔ request.Payload = none) →
        validateRequest other = validateRequest request) := by
  refine ⟨?_, ?_, ?_, ?_⟩
  · by_cases h : request.Payload = none <;> simp [validateRequest, h]
  · by_cases h : request.Payload = none <;> simp [validateRequest, h]
  · simp [validateRequest]
  · intro other hiff
    by_cases h : request.Payload = none
    · simp [validateRequest, h, hiff.2 h]
    · have h2 : other.Payload ≠ none := fun ho => h (hiff.1 ho)
      simp [validateRequest, h, h2]

/-- C3: a decoded request whose payload is nil gets status 400 with the error body
"Could not decode request: payload is required" and no response list, whatever its
`skip`, `take` and `totalRecords`. -/
theorem C3_nil_payload_is_400 (skip take total : Int) :
    DealwithEpisodes (.ok { Payload := none, Skip := skip, Take := take, Total := total })
      = ⟨400, .error "Could not decode request: payload is required"⟩
    ∧ responseList (DealwithEpisodes
        (.ok { Payload := none, Skip := skip, Take := take, Total := total })) = none := by
  constructor <;> rfl

/-- Echo's binder fails exactly when the content length is not 0 and decoding fails. -/
theorem Bind_eq_error_iff (decodeBody : HTTPRequest → Except String EpisodeRequest)
    (req : HTTPRequest) (bindErr : String) :
    Bind decodeBody req = .error bindErr ↔
      req.ContentLength ≠ 0 ∧ decodeBody req = .error bindErr := by
  unfold Bind BindBody
  by_cases h : req.ContentLength = 0
  · rw [if_pos h]
    constructor
    · intro he
      exact absurd he (by simp)
    · intro he
      exact absurd h he.1
  · rw [if_neg h]
    exact ⟨fun he => ⟨h, he⟩, fun he => he.2⟩

/-- On a request of content length 0 the binder leaves the request at its zero value, so
the handler reports the missing payload. -/
theorem DealwithEpisodesOnRequest_of_no_content
    (decodeBody : HTTPRequest → Except String EpisodeRequest) {req : HTTPRequest}
    (h : req.ContentLength = 0) :
    Bind decodeBody req = .ok {}
    ∧ DealwithEpisodesOnRequest decodeBody req
        = ⟨400, .error "Could not decode request: payload is required"⟩ := by
  have hb : Bind decodeBody req = .ok {} := by
    unfold Bind BindBody
    rw [if_pos h]
  refine ⟨hb, ?_⟩
  unfold DealwithEpisodesOnRequest
  rw [hb]
  rfl

/-- The empty body is not a JSON text, yet binding it succeeds and the handler answers
with "payload is required", not with "JSON parsing failed": C4 as worded, for every body
that is not syntactically valid JSON, fails on the code. -/
theorem C4_empty_body_is_not_a_parse_failure :
    isValidJSON emptyBodyRequest.Body = false
    ∧ (∀ decodeBody : HTTPRequest → Except String EpisodeRequest,
        Bind decodeBody emptyBodyRequest = .ok {}
        ∧ DealwithEpisodesOnRequest decodeBody emptyBodyRequest
            = ⟨400, .error "Could not decode request: payload is required"⟩)
    ∧ ¬ ∀ (decodeBody : HTTPRequest → Except String EpisodeRequest) (req : HTTPRequest),
        isValidJSON req.Body = false →
          DealwithEpisodesOnRequest decodeBody req
            = ⟨400, .error "Could not decode request: JSON parsing failed"⟩ := by
  have hjson : isValidJSON emptyBodyRequest.Body = false := by decide
  refine ⟨hjson, fun decodeBody => DealwithEpisodesOnRequest_of_no_content decodeBody rfl, ?_⟩
  intro hall
  have h1 := hall (fun _ => .error "") emptyBodyRequest hjson
  rw [(DealwithEpisodesOnRequest_of_no_content (fun _ => .error "") rfl).2] at h1
  exact absurd h1 (by decide)

/-- C4, amended: whenever binding the request fails the handler answers 400 with the
fixed error body "Could not decode request: JSON parsing failed", whatever the failure,
and carries no response list; on this route the binder fails exactly when the content
length is not 0 and the body cannot be decoded, while a request of content length 0 is
bound without error and answered with "Could not decode request: payload is required". -/
theorem C4_bind_failure_is_400 (bindErr : String)
    (decodeBody : HTTPRequest → Except String EpisodeRequest) (req : HTTPRequest) :
    DealwithEpisodes (.error bindErr)
      = ⟨400, .error "Could not decode request: JSON parsing failed"⟩
    ∧ responseList (DealwithEpisodes (.error bindErr)) = none
    ∧ (Bind decodeBody req = .error bindErr ↔
        req.ContentLength ≠ 0 ∧ decodeBody req = .error bindErr)
    ∧ (Bind decodeBody req = .error bindErr →
        DealwithEpisodesOnRequest decodeBody req
          = ⟨400, .error "Could not decode request: JSON parsing failed"⟩)
    ∧ (req.ContentLength = 0 →
        DealwithEpisodesOnRequest decodeBody req
          = ⟨400, .error "Could not decode request: payload is required"⟩) := by
  refine ⟨rfl, rfl, Bind_eq_error_iff decodeBody req bindErr, ?_, ?_⟩
  · intro hfail
    unfold DealwithEpisodesOnRequest
    rw [hfail]
    rfl
  · intro h0
    exact (DealwithEpisodesOnRequest_of_no_content decodeBody h0).2

/-- C5: a decoded request with a non-nil payload always gets status 200 with a non-nil
response list; the list is the explicit empty list when no episode passes the business
filter and validation, in particular for the empty payload. -/
theorem C5_non_nil_payload_is_200 (payload : List Episode) (skip take total : Int) :
    ∃ items : List EpisodeResponseItem,
      DealwithEpisodes
          (.ok { Payload := some payload, Skip := skip, Take := take, Total := total })
        = ⟨200, .episodes { Response := some items }⟩
      ∧ ((∀ e ∈ payload, ¬ (e.DRM = true ∧ e.EpisodeCount > 0 ∧ validateEpisode e = none)) →
          items = [])
      ∧ (payload = [] → items = []) := by
  refine ⟨specResponse payload, DealwithEpisodes_ok payload skip take total, ?_, ?_⟩
  · intro hall
    unfold specResponse
    rw [List.map_eq_nil_iff, List.filter_eq_nil_iff]
    intro e he hk
    simp only [specKeeps, Bool.and_eq_true, decide_eq_true_eq, beq_iff_eq] at hk
    exact hall e he ⟨hk.1.1.1.1.1, hk.1.1.1.1.2,
      (validateEpisode_eq_none_iff e).2 ⟨hk.1.1.1.2, hk.1.1.2, hk.1.2, hk.2⟩⟩
  · intro hnil
    subst hnil
    rfl

/-- C6: every item of the response list is the projection of a payload episode that has
`drm` set and a positive `episodeCount`; dropping from the payload the episodes with `drm`
unset or `episodeCount <= 0` leaves the response list unchanged, whatever their title,
slug and image; and a payload made only of such episodes yields the empty response
list. -/
theorem C6_business_filter (payload : List Episode) (skip take total : Int) :
    ∃ items : List EpisodeResponseItem,
      responseList (DealwithEpisodes
          (.ok { Payload := some payload, Skip := skip, Take := take, Total := total }))
        = some items
      ∧ (∀ item ∈ items, ∃ e ∈ payload, e.DRM = true ∧ e.EpisodeCount > 0 ∧
          item = { Image := e.Image.ShowImage, Slug := e.Slug, Title := e.Title })
      ∧ responseList (DealwithEpisodes
          (.ok { Payload := some (payload.filter fun e => e.DRM && decide (e.EpisodeCount > 0)),
                 Skip := skip, Take := take, Total := total }))
        = some items
      ∧ ((∀ e ∈ payload, e.DRM = false ∨ e.EpisodeCount ≤ 0) → items = []) := by
  refine ⟨specResponse payload, ?_, ?_, ?_, ?_⟩
  · rw [DealwithEpisodes_ok]
    rfl
  · intro item hitem
    unfold specResponse at hitem
    obtain ⟨e, he, rfl⟩ := List.mem_map.1 hitem
    obtain ⟨hmem, hk⟩ := List.mem_filter.1 he
    simp only [specKeeps, Bool.and_eq_true, decide_eq_true_eq, beq_iff_eq] at hk
    exact ⟨e, hmem, hk.1.1.1.1.1, hk.1.1.1.1.2, rfl⟩
  · rw [DealwithEpisodes_ok]
    show some (specResponse _) = some (specResponse payload)
    unfold specResponse
    rw [List.filter_filter]
    congr 2
    apply List.filter_congr
    intro e _
    by_cases hk : specKeeps e = true
    · have hk2 := hk
      simp only [specKeeps, Bool.and_eq_true, decide_eq_true_eq, beq_iff_eq] at hk2
      simp [hk, hk2.1.1.1.1.1, hk2.1.1.1.1.2]
    · simp [hk]
  · intro hall
    unfold specResponse
    rw [List.map_eq_nil_iff, List.filter_eq_nil_iff]
    intro e he hk
    simp only [specKeeps, Bool.and_eq_true, decide_eq_true_eq, beq_iff_eq] at hk
    rcases hall e he with hd | hc
    · rw [hd] at hk
      exact absurd hk.1.1.1.1.1 (by simp)
    · exact absurd hk.1.1.1.1.2 (not_lt.2 hc)

/-! ## Claims about the URL check and episode validation -/

/-- The check `isValidURL` makes, on the scheme as written and the `Host` field. -/
theorem isValidURL_iff_hostFieldValidURL (s : GoString) :
    isValidURL s = true ↔ hostFieldValidURL s = true := by
  rw [isValidURL_eq_true_iff]
  unfold hostFieldValidURL parsesAsURI hostOf
  cases hr : ParseRequestURI s with
  | error e => simp
  | ok r =>
    cases hp : Parse s with
    | error e => simp
    | ok u =>
      have hsch := Parse_scheme hp
      simp only [Bool.and_eq_true, Bool.or_eq_true, decide_eq_true_eq, Bool.true_and]
      constructor
      · rintro ⟨-, u2, hu, h1, h2, h3⟩
        injection hu with hu
        subst hu
        rw [hsch] at h1 h3
        refine ⟨⟨?_, h2⟩, h3.symm⟩
        exact fun hw => h1 ((toLower_eq_nil_iff _).2 hw)
      · rintro ⟨⟨h1, h2⟩, h3⟩
        refine ⟨⟨r, rfl⟩, u, rfl, ?_, h2, ?_⟩
        · rw [hsch]
          exact fun hw => h1 ((toLower_eq_nil_iff _).1 hw)
        · rw [hsch]
          exact h3.symm

/-- The URL check accepts `HTTP://a`, whose scheme as written is neither `http` nor
`https`: the spec's case-sensitive wording of the check (C7) fails on the code. -/
theorem C7_case_sensitive_scheme_fails :
    isValidURL (goStr "HTTP://a") = true ∧ specValidURL (goStr "HTTP://a") = false
    ∧ ¬ ∀ s : GoString, isValidURL s = true ↔ specValidURL s = true := by
  have hv : isValidURL (goStr "HTTP://a") = true := by decide
  have hs : specValidURL (goStr "HTTP://a") = false := by decide
  refine ⟨hv, hs, ?_⟩
  intro h
  have := (h (goStr "HTTP://a")).1 hv
  rw [hs] at this
  exact absurd this (by simp)

/-- C7, amended: for every string `s` other than a URL whose authority is non-empty but
holds no host name (a bare port, or empty brackets), `isValidURL s` holds exactly when
`s` parses as an absolute URI (both `url.ParseRequestURI` and `url.Parse` accept it), has
a non-empty scheme and a non-empty host, and its scheme, lower-cased as `url.Parse`
stores it, is `http` or `https`; and every string valid under the spec's case-sensitive
wording is valid. -/
theorem C7_isValidURL_iff_lowerCased (s : GoString)
    (hhost : hostOf s = [] ∨ hostnameOf s ≠ []) :
    (isValidURL s = true ↔ lowerCasedValidURL s = true)
    ∧ (specValidURL s = true → isValidURL s = true) := by
  have hiff : hostOf s ≠ [] ↔ hostnameOf s ≠ [] := by
    constructor
    · intro h
      rcases hhost with h2 | h2
      · exact absurd h2 h
      · exact h2
    · exact hostOf_ne_nil_of_hostnameOf
  have key : isValidURL s = true ↔ lowerCasedValidURL s = true := by
    rw [isValidURL_iff_hostFieldValidURL]
    unfold hostFieldValidURL lowerCasedValidURL
    simp only [Bool.and_eq_true, Bool.or_eq_true, decide_eq_true_eq, hiff]
  refine ⟨key, ?_⟩
  intro hspec
  rw [key]
  unfold specValidURL at hspec
  unfold lowerCasedValidURL
  simp only [Bool.and_eq_true, Bool.or_eq_true, decide_eq_true_eq] at hspec ⊢
  refine ⟨hspec.1, ?_⟩
  rcases hspec.2 with h | h
  · left
    rw [h]
    decide
  · right
    rw [h]
    decide

/-- C7, amended, at `HTTP://a`: a host name is present, the string is valid, and the
lower-cased check agrees. -/
theorem C7_isValidURL_iff_lowerCased_witness :
    (hostOf (goStr "HTTP://a") = [] ∨ hostnameOf (goStr "HTTP://a") ≠ [])
    ∧ ((isValidURL (goStr "HTTP://a") = true ↔ lowerCasedValidURL (goStr "HTTP://a") = true)
      ∧ (specValidURL (goStr "HTTP://a") = true → isValidURL (goStr "HTTP://a") = true)) :=
  ⟨Or.inr (by decide), C7_isValidURL_iff_lowerCased (goStr "HTTP://a") (Or.inr (by decide))⟩

/-- C8: `validateEpisode` returns no error exactly when title, slug and image URL are
non-empty and the image URL passes `isValidURL`; otherwise its error carries the message
of the first failing check, in the order title, slug, image required, image valid; and
the result depends on the episode's title, slug and image URL only. -/
theorem C8_validateEpisode_checks (e : Episode) :
    (validateEpisode e = none ↔
      e.Title ≠ [] ∧ e.Slug ≠ [] ∧ e.Image.ShowImage ≠ [] ∧
        isValidURL e.Image.ShowImage = true)
    ∧ (e.Title = [] → validateEpisode e = some ⟨400, "title is required"⟩)
    ∧ (e.Title ≠ [] → e.Slug = [] → validateEpisode e = some ⟨400, "slug is required"⟩)
    ∧ (e.Title ≠ [] → e.Slug ≠ [] → e.Image.ShowImage = [] →
        validateEpisode e = some ⟨400, "image.showImage is required"⟩)
    ∧ (e.Title ≠ [] → e.Slug ≠ [] → e.Image.ShowImage ≠ [] →
        isValidURL e.Image.ShowImage = false →
        validateEpisode e = some ⟨400, "image.showImage must be a valid URL"⟩)
    ∧ (∀ other : Episode, other.Title = e.Title → other.Slug = e.Slug →
        other.Image.ShowImage = e.Image.ShowImage →
        validateEpisode other = validateEpisode e) := by
  refine ⟨validateEpisode_eq_none_iff e, ?_, ?_, ?_, ?_, ?_⟩
  · intro h1
    simp [validateEpisode, h1]
  · intro h1 h2
    simp [validateEpisode, h1, h2]
  · intro h1 h2 h3
    simp [validateEpisode, h1, h2, h3]
  · intro h1 h2 h3 h4
    simp [validateEpisode, h1, h2, h3, h4]
  · intro other ht hs hi
    simp [validateEpisode, ht, hs, hi]

/-! ## Strings the URL check rejects -/

theorem isValidURL_eq_false_of_not {s : GoString} (h : ¬ isValidURL s = true) :
    isValidURL s = false := by
  simpa using h

theorem isValidURL_false_of_scheme {s : GoString}
    (h1 : toLower (writtenScheme s) ≠ goStr "http")
    (h2 : toLower (writtenScheme s) ≠ goStr "https") : isValidURL s = false := by
  apply isValidURL_eq_false_of_not
  rw [isValidURL_eq_true_iff]
  rintro ⟨-, u, hu, -, -, hsch⟩
  rw [Parse_scheme hu] at hsch
  rcases hsch with h | h
  · exact h2 h
  · exact h1 h

theorem isValidURL_false_of_hostOf {s : GoString} (h : hostOf s = []) :
    isValidURL s = false := by
  apply isValidURL_eq_false_of_not
  rw [isValidURL_eq_true_iff]
  rintro ⟨-, u, hu, -, hhost, -⟩
  unfold hostOf at h
  rw [hu] at h
  exact hhost h

/-- A scheme followed by `//` and an empty authority leaves `url.Parse` without host. -/
theorem hostOf_nil_of_empty_authority {s scheme rest0 : GoString}
    (hg : getScheme (cutByte s 35).1 = .ok (scheme, rest0)) (hs : scheme ≠ [])
    (hpre : hasPrefix (cutQuery rest0).1 [47, 47] = true)
    (hauth : (splitAuthority (cutQuery rest0).1).1 = []) : hostOf s = [] := by
  unfold hostOf
  cases hP : Parse s with
  | error e => rfl
  | ok u =>
    simp only
    cases hctl : stringContainsCTLByte (cutByte s 35).1 with
    | true =>
      have : parse (cutByte s 35).1 false = .error .invalidControlCharacter := by
        unfold parse
        rw [if_pos hctl]
      rw [Parse_error_of_parse this] at hP
      exact absurd hP (by simp)
    | false =>
      have hls : toLower scheme ≠ [] := fun h => hs ((toLower_eq_nil_iff _).1 h)
      have hpa : parseAuthority (splitAuthority (cutQuery rest0).1).1 = .ok (none, []) := by
        rw [hauth]
        rfl
      have hparse := parse_eq_parseRest false hctl hg hs hpre
      rw [parseRest_authority_ok false hls hpre hpa] at hparse
      cases hsp : setPath
          { Scheme := toLower scheme, ForceQuery := (cutQuery rest0).2.1,
            RawQuery := (cutQuery rest0).2.2, User := none, Host := [] }
          (splitAuthority (cutQuery rest0).1).2 with
      | error e =>
        rw [hsp] at hparse
        rw [Parse_error_of_parse hparse] at hP
        exact absurd hP (by simp)
      | ok url =>
        rw [hsp] at hparse
        rw [Parse_host_of_parse hparse hP, (setPath_ok hsp).2]

theorem isValidURL_false_of_emptyAuthorityTail (scheme tail : GoString)
    (hsch : scheme = goStr "http" ∨ scheme = goStr "https")
    (ht : emptyAuthorityTail tail = true) :
    isValidURL (scheme ++ goStr "://" ++ tail) = false := by
  apply isValidURL_false_of_hostOf
  have hpre : ∀ t : GoString, hasPrefix (cutQuery (47 :: 47 :: t)).1 [47, 47] = true := by
    intro t
    rw [cutQuery_fst]
    simp [List.takeWhile_cons, hasPrefix]
  have hauth : (splitAuthority
      (cutQuery (47 :: 47 :: tail.takeWhile fun x => decide (x ≠ 35))).1).1 = [] := by
    rw [splitAuthority_eq, cutQuery_fst]
    cases tail with
    | nil => simp [List.takeWhile_cons]
    | cons c cs =>
      simp only [emptyAuthorityTail, Bool.or_eq_true, beq_iff_eq] at ht
      rcases ht with (ht | ht) | ht <;> subst ht <;> simp [List.takeWhile_cons]
  rcases hsch with h | h
  · subst h
    have hcut : (cutByte (goStr "http" ++ goStr "://" ++ tail) 35).1
        = 104 :: 116 :: 116 :: 112 :: 58 :: 47 :: 47 ::
            tail.takeWhile fun x => decide (x ≠ 35) := by
      rw [cutByte_fst_eq_takeWhile]
      have : goStr "http" ++ goStr "://" = [104, 116, 116, 112, 58, 47, 47] := by decide
      rw [this]
      simp [List.takeWhile_cons]
    refine @hostOf_nil_of_empty_authority _ [104, 116, 116, 112]
      (47 :: 47 :: tail.takeWhile fun x => decide (x ≠ 35)) ?_ (by simp) (hpre _) hauth
    rw [hcut]
    rfl
  · subst h
    have hcut : (cutByte (goStr "https" ++ goStr "://" ++ tail) 35).1
        = 104 :: 116 :: 116 :: 112 :: 115 :: 58 :: 47 :: 47 ::
            tail.takeWhile fun x => decide (x ≠ 35) := by
      rw [cutByte_fst_eq_takeWhile]
      have : goStr "https" ++ goStr "://" = [104, 116, 116, 112, 115, 58, 47, 47] := by decide
      rw [this]
      simp [List.takeWhile_cons]
    refine @hostOf_nil_of_empty_authority _ [104, 116, 116, 112, 115]
      (47 :: 47 :: tail.takeWhile fun x => decide (x ≠ 35)) ?_ (by simp) (hpre _) hauth
    rw [hcut]
    rfl

/-- C9 at the failing input: `http://:80/x` parses, has an empty host name (only a port
follows `//`), and yet `isValidURL` accepts it and `validateEpisode` passes an episode
that carries it as image URL, where C9 has every URL with an empty host rejected. -/
theorem C9_port_only_url_accepted :
    parsesAsURI (goStr "http://:80/x") = true
    ∧ hostnameOf (goStr "http://:80/x") = []
    ∧ hostOf (goStr "http://:80/x") = goStr ":80"
    ∧ isValidURL (goStr "http://:80/x") = true
    ∧ validateEpisode
        { Title := goStr "Thunderbirds", Slug := goStr "show/thunderbirds",
          Image := { ShowImage := goStr "http://:80/x" } } = none := by
  decide

/-- The kinds of strings `isValidURL` does reject: every string without a scheme (a
relative reference), every string whose scheme, lower-cased, is neither `http` nor
`https`, every string in which `url.Parse` finds an empty `Host` (no host and no port),
such as `http://` or `https://` followed by nothing or directly by a path, query or
fragment, and the empty string; on an episode with title and slug, `validateEpisode`
then fails with "image.showImage must be a valid URL", or with "image.showImage is
required" when the image URL is empty. -/
theorem isValidURL_rejects_kinds :
    (∀ s : GoString, writtenScheme s = [] → isValidURL s = false)
    ∧ (∀ s : GoString, toLower (writtenScheme s) ≠ goStr "http" →
        toLower (writtenScheme s) ≠ goStr "https" → isValidURL s = false)
    ∧ (∀ s : GoString, hostOf s = [] → isValidURL s = false)
    ∧ (∀ scheme tail : GoString, scheme = goStr "http" ∨ scheme = goStr "https" →
        emptyAuthorityTail tail = true → isValidURL (scheme ++ goStr "://" ++ tail) = false)
    ∧ isValidURL (goStr "") = false
    ∧ isValidURL (goStr "catchup.ninemsn.com.au/img/x.jpg") = false
    ∧ isValidURL (goStr "ftp://host/x") = false
    ∧ isValidURL (goStr "htp://host/x") = false
    ∧ isValidURL (goStr "http://") = false
    ∧ (∀ e : Episode, e.Title ≠ [] → e.Slug ≠ [] →
        (e.Image.ShowImage = [] →
          validateEpisode e = some ⟨400, "image.showImage is required"⟩)
        ∧ (e.Image.ShowImage ≠ [] → isValidURL e.Image.ShowImage = false →
          validateEpisode e = some ⟨400, "image.showImage must be a valid URL"⟩)) := by
  refine ⟨?_, ?_, ?_, ?_, by decide, by decide, by decide, by decide, by decide, ?_⟩
  · intro s hs
    apply isValidURL_false_of_scheme <;> rw [hs] <;> decide
  · intro s h1 h2
    exact isValidURL_false_of_scheme h1 h2
  · intro s h
    exact isValidURL_false_of_hostOf h
  · intro scheme tail hsch ht
    exact isValidURL_false_of_emptyAuthorityTail scheme tail hsch ht
  · intro e h1 h2
    constructor
    · intro h3
      simp [validateEpisode, h1, h2, h3]
    · intro h3 h4
      simp [validateEpisode, h1, h2, h3, h4]

/-! ## Strings the URL check accepts -/

/-- C10: `isValidURL` accepts every string made of `http://` or `https://`, a non-empty
host name of letters, digits, `.` and `-`, an optional `:` and decimal port, an optional
path that starts with `/` and holds unreserved characters, and an optional `?` query of
unreserved characters, `=` and `&`; so `validateEpisode` succeeds on an episode with
non-empty title and slug and such an image URL. -/
theorem C10_isValidURL_accepts_wellFormed (scheme host port path query : GoString)
    (hscheme : scheme = goStr "http" ∨ scheme = goStr "https")
    (hhost : isHostName host = true) (hport : isOptionalPort port = true)
    (hpath : isOptionalPath path = true) (hquery : isOptionalQuery query = true) :
    isValidURL (scheme ++ goStr "://" ++ host ++ port ++ path ++ query) = true
    ∧ ∀ e : Episode, e.Title ≠ [] → e.Slug ≠ [] →
        e.Image.ShowImage = scheme ++ goStr "://" ++ host ++ port ++ path ++ query →
        validateEpisode e = none := by
  have hv := isValidURL_wellFormed hscheme hhost hport hpath hquery
  refine ⟨hv, ?_⟩
  intro e h1 h2 h3
  rw [validateEpisode_eq_none_iff, h3]
  refine ⟨h1, h2, ?_, hv⟩
  intro hnil
  rw [hnil] at hv
  exact absurd hv (by decide)

/-- C10 at the test suite's URL with port and query,
`http://catchup.ninemsn.com.au:8080/img/jump-in/shows/Thunderbirds_1280.jpg?width=400`:
its parts have the stated shape, and the URL is accepted. -/
theorem C10_isValidURL_accepts_wellFormed_witness :
    (isHostName (goStr "catchup.ninemsn.com.au") = true
      ∧ isOptionalPort (goStr ":8080") = true
      ∧ isOptionalPath (goStr "/img/jump-in/shows/Thunderbirds_1280.jpg") = true
      ∧ isOptionalQuery (goStr "?width=400") = true)
    ∧ (isValidURL (goStr "http" ++ goStr "://" ++ goStr "catchup.ninemsn.com.au"
          ++ goStr ":8080" ++ goStr "/img/jump-in/shows/Thunderbirds_1280.jpg"
          ++ goStr "?width=400") = true
      ∧ ∀ e : Episode, e.Title ≠ [] → e.Slug ≠ [] →
          e.Image.ShowImage = goStr "http" ++ goStr "://" ++ goStr "catchup.ninemsn.com.au"
            ++ goStr ":8080" ++ goStr "/img/jump-in/shows/Thunderbirds_1280.jpg"
            ++ goStr "?width=400" →
          validateEpisode e = none) :=
  ⟨⟨by decide, by decide, by decide, by decide⟩,
    C10_isValidURL_accepts_wellFormed (goStr "http") (goStr "catchup.ninemsn.com.au")
      (goStr ":8080") (goStr "/img/jump-in/shows/Thunderbirds_1280.jpg") (goStr "?width=400")
      (Or.inl rfl) (by decide) (by decide) (by decide) (by decide)⟩

/-! ## What the response depends on -/

theorem map_filterFields_eq_of_agree {xs ys : List Episode} (hlen : xs.length = ys.length)
    (h : ∀ i, i < xs.length → (xs[i]?).map filterFields = (ys[i]?).map filterFields) :
    xs.map filterFields = ys.map filterFields := by
  apply List.ext_getElem?
  intro i
  rw [List.getElem?_map, List.getElem?_map]
  by_cases hi : i < xs.length
  · exact h i hi
  · have h1 : xs[i]? = none := List.getElem?_eq_none (by omega)
    have h2 : ys[i]? = none := List.getElem?_eq_none (by omega)
    rw [h1, h2]

theorem specKeeps_congr {a b : Episode} (h : filterFields a = filterFields b) :
    specKeeps a = specKeeps b ∧ specProject a = specProject b := by
  simp only [filterFields, Prod.mk.injEq] at h
  obtain ⟨h1, h2, h3, h4, h5⟩ := h
  constructor
  · simp only [specKeeps, h1, h2, h3, h4, h5]
  · simp only [specProject, h3, h4, h5]

/-- The spec's response list reads the five filter fields of each episode only. -/
theorem specResponse_congr {xs ys : List Episode}
    (h : xs.map filterFields = ys.map filterFields) : specResponse xs = specResponse ys := by
  induction xs generalizing ys with
  | nil =>
    cases ys with
    | nil => rfl
    | cons y ys => simp at h
  | cons x xs ih =>
    cases ys with
    | nil => simp at h
    | cons y ys =>
      simp only [List.map_cons, List.cons.injEq] at h
      have hk := specKeeps_congr h.1
      have hrest := ih h.2
      unfold specResponse at hrest ⊢
      by_cases hx : specKeeps x = true
      · have hy : specKeeps y = true := by rw [← hk.1]; exact hx
        rw [List.filter_cons_of_pos hx, List.filter_cons_of_pos hy, List.map_cons,
          List.map_cons, hk.2, hrest]
      · have hy : ¬ specKeeps y = true := by rw [← hk.1]; exact hx
        rw [List.filter_cons_of_neg hx, List.filter_cons_of_neg hy, hrest]

/-- The handler's answer to a decoded request with a non-nil payload. -/
theorem DealwithEpisodes_of_some {request : EpisodeRequest} {payload : List Episode}
    (h : request.Payload = some payload) :
    DealwithEpisodes (.ok request)
      = ⟨200, .episodes { Response := some (specResponse payload) }⟩ := by
  obtain ⟨pl, skip, take, total⟩ := request
  simp only at h
  subst h
  exact DealwithEpisodes_ok payload skip take total

/-- The handler's answer to a decoded request with a nil payload. -/
theorem DealwithEpisodes_of_none {request : EpisodeRequest} (h : request.Payload = none) :
    DealwithEpisodes (.ok request)
      = ⟨400, .error "Could not decode request: payload is required"⟩ := by
  obtain ⟨pl, skip, take, total⟩ := request
  simp only at h
  subst h
  rfl

/-- Requests that agree on nil-ness and on the filter fields get the same answer. -/
theorem DealwithEpisodes_congr {r1 r2 : EpisodeRequest}
    (h : agreeOnFilterFields r1.Payload r2.Payload) :
    DealwithEpisodes (.ok r1) = DealwithEpisodes (.ok r2) := by
  cases h1 : r1.Payload with
  | none =>
    cases h2 : r2.Payload with
    | none => rw [DealwithEpisodes_of_none h1, DealwithEpisodes_of_none h2]
    | some ys =>
      rw [h1, h2] at h
      exact absurd h (by simp [agreeOnFilterFields])
  | some xs =>
    cases h2 : r2.Payload with
    | none =>
      rw [h1, h2] at h
      exact absurd h (by simp [agreeOnFilterFields])
    | some ys =>
      rw [h1, h2] at h
      simp only [agreeOnFilterFields] at h
      rw [DealwithEpisodes_of_some h1, DealwithEpisodes_of_some h2,
        specResponse_congr (map_filterFields_eq_of_agree h.1 h.2)]

/-- C11: two decoded requests whose payloads are both nil, or both lists of the same
length that agree position by position on `drm`, `episodeCount`, `title`, `slug` and
`image.showImage`, get the same status and the same response list (indeed the same
response), whatever their other episode fields and their `skip`, `take` and
`totalRecords`; whether the payload is nil does matter, a nil and an empty payload being
answered 400 and 200. -/
theorem C11_response_depends_on_filter_fields (r1 r2 : EpisodeRequest)
    (h : agreeOnFilterFields r1.Payload r2.Payload) :
    (DealwithEpisodes (.ok r1)).status = (DealwithEpisodes (.ok r2)).status
    ∧ responseList (DealwithEpisodes (.ok r1)) = responseList (DealwithEpisodes (.ok r2))
    ∧ DealwithEpisodes (.ok r1) = DealwithEpisodes (.ok r2)
    ∧ (DealwithEpisodes (.ok { Payload := none })).status = 400
    ∧ (DealwithEpisodes (.ok { Payload := some [] })).status = 200 := by
  have heq := DealwithEpisodes_congr h
  refine ⟨?_, ?_, heq, rfl, rfl⟩
  · rw [heq]
  · rw [heq]

/-- C11 on `exampleRequest` and `exampleRequestOtherFields`, which carry the same kept
episode and the same dropped episode but differ in country, description, genre,
language, colour, channel, next episode, seasons, `skip`, `take` and `totalRecords`. -/
theorem C11_response_depends_on_filter_fields_witness :
    agreeOnFilterFields exampleRequest.Payload exampleRequestOtherFields.Payload
    ∧ exampleRequest ≠ exampleRequestOtherFields
    ∧ DealwithEpisodes (.ok exampleRequest) = DealwithEpisodes (.ok exampleRequestOtherFields)
    ∧ responseList (DealwithEpisodes (.ok exampleRequest))
        = some [{ Image := goStr "http://catchup.ninemsn.com.au/img/16Kids.jpg",
                  Slug := goStr "show/16kidsandcounting",
                  Title := goStr "16 Kids and Counting" }] := by
  have hagree :
      agreeOnFilterFields exampleRequest.Payload exampleRequestOtherFields.Payload := by
    refine ⟨rfl, ?_⟩
    intro i hi
    have hi2 : i < 2 := hi
    interval_cases i <;> rfl
  refine ⟨hagree, by decide,
    (C11_response_depends_on_filter_fields exampleRequest exampleRequestOtherFields hagree).2.2.1,
    by decide⟩

/-! ## The items of a 200 response -/

/-- Every item of the spec's response list carries non-empty fields and a valid URL. -/
theorem specResponse_item_valid {payload : List Episode} {item : EpisodeResponseItem}
    (h : item ∈ specResponse payload) :
    item.Image ≠ [] ∧ item.Slug ≠ [] ∧ item.Title ≠ [] ∧ isValidURL item.Image = true := by
  unfold specResponse at h
  obtain ⟨e, he, rfl⟩ := List.mem_map.1 h
  obtain ⟨-, hk⟩ := List.mem_filter.1 he
  simp only [specKeeps, Bool.and_eq_true, decide_eq_true_eq, beq_iff_eq] at hk
  exact ⟨hk.1.2, hk.1.1.2, hk.1.1.1.2, hk.2⟩

/-- A 200 answer comes from a decoded request with a non-nil payload. -/
theorem payload_of_status_200 {bound : Except String EpisodeRequest}
    (h : (DealwithEpisodes bound).status = 200) :
    ∃ request payload, bound = .ok request ∧ request.Payload = some payload := by
  cases bound with
  | error e =>
    have h400 : (400 : Nat) = 200 := h
    exact absurd h400 (by decide)
  | ok request =>
    cases hp : request.Payload with
    | none =>
      rw [DealwithEpisodes_of_none hp] at h
      have h400 : (400 : Nat) = 200 := h
      exact absurd h400 (by decide)
    | some payload => exact ⟨request, payload, rfl, hp⟩

/-- C12: whenever the handler answers 200, the response carries a list, and every item
of it has a non-empty image, a non-empty slug and a non-empty title, and an image that
passes `isValidURL`. -/
theorem C12_response_items_valid (bound : Except String EpisodeRequest)
    (h200 : (DealwithEpisodes bound).status = 200) :
    ∃ items : List EpisodeResponseItem,
      responseList (DealwithEpisodes bound) = some items
      ∧ ∀ item ∈ items,
          item.Image ≠ [] ∧ item.Slug ≠ [] ∧ item.Title ≠ [] ∧
            isValidURL item.Image = true := by
  obtain ⟨request, payload, rfl, hp⟩ := payload_of_status_200 h200
  refine ⟨specResponse payload, ?_, fun item hitem => specResponse_item_valid hitem⟩
  rw [DealwithEpisodes_of_some hp]
  rfl

/-- C12 on `exampleRequest`, which is answered 200 with one item. -/
theorem C12_response_items_valid_witness :
    (DealwithEpisodes (.ok exampleRequest)).status = 200
    ∧ ∃ items : List EpisodeResponseItem,
        responseList (DealwithEpisodes (.ok exampleRequest)) = some items
        ∧ ∀ item ∈ items,
            item.Image ≠ [] ∧ item.Slug ≠ [] ∧ item.Title ≠ [] ∧
              isValidURL item.Image = true :=
  ⟨by decide, C12_response_items_valid (.ok exampleRequest) (by decide)⟩

/-! ## The response of a concatenated payload -/

theorem specResponse_append (p q : List Episode) :
    specResponse (p ++ q) = specResponse p ++ specResponse q := by
  unfold specResponse
  rw [List.filter_append, List.map_append]

theorem specResponse_length_le (p : List Episode) : (specResponse p).length ≤ p.length := by
  unfold specResponse
  rw [List.length_map]
  exact List.length_filter_le _ _

/-- One iteration of the loop does not look at what the response already holds: the
items it leaves are the items it found followed by what it adds from an empty response. -/
theorem loopBody_independent (st : LoopState) (e : Episode) :
    (loopBody st e).response.Response.getD [] =
      st.response.Response.getD [] ++
        (loopBody { response := { Response := none }, matchedCount := 0 } e).response.Response.getD
          [] := by
  rw [loopBody_getD, loopBody_getD]
  rfl

/-- C13: for all episode lists `p` and `q` the response list for the payload `p ++ q` is
the response list for `p` followed by the response list for `q`, so every episode is kept
or dropped independently of the others, and a response list is never longer than its
payload. -/
theorem C13_response_of_append (p q : List Episode) (skip take total : Int) :
    ∃ rp rq : List EpisodeResponseItem,
      responseList (DealwithEpisodes
          (.ok { Payload := some p, Skip := skip, Take := take, Total := total })) = some rp
      ∧ responseList (DealwithEpisodes
          (.ok { Payload := some q, Skip := skip, Take := take, Total := total })) = some rq
      ∧ responseList (DealwithEpisodes
          (.ok { Payload := some (p ++ q), Skip := skip, Take := take, Total := total }))
        = some (rp ++ rq)
      ∧ rp.length ≤ p.length
      ∧ rq.length ≤ q.length
      ∧ (rp ++ rq).length ≤ (p ++ q).length := by
  refine ⟨specResponse p, specResponse q, ?_, ?_, ?_, specResponse_length_le p,
    specResponse_length_le q, ?_⟩
  · rw [DealwithEpisodes_ok]
    rfl
  · rw [DealwithEpisodes_ok]
    rfl
  · rw [DealwithEpisodes_ok, specResponse_append]
    rfl
  · rw [← specResponse_append]
    exact specResponse_length_le (p ++ q)

end Stantest
